import Mathlib

/-!
yal: a verification development for `Logger.h`.

A shallow embedding of the header-only logging library `Logger.h`
(namespace `log`, class `Logger`), followed by theorems about it.

Modelling conventions.

* A `std::string` is the list of its `char`s (`List Char`); a `char` is a Lean `Char`.
  The buffer returned by `c_str()` is the string's characters followed by one
  terminating NUL; reading at any later position is outside the buffer.
* An `int` is an `Int`; `std::cout << int` writes its decimal representation,
  with a leading `-` when negative and without padding.
* The text written to `std::cout` by a call is returned by the embedded function.
* `time(nullptr)` / `localtime` are an input: the broken-down time `Tm`.
* `Logger *` is an address (`Ptr`) into an explicit heap of `Logger` objects;
  `new` hands out addresses in increasing order and never one of a live object.
-/

namespace Yal

/-! ## Data model -/

/-- The enumeration `LOGGING_TYPE { ERROR, WARNING, INFO, DEBUG }`. -/
inductive LOGGING_TYPE where
  | ERROR
  | WARNING
  | INFO
  | DEBUG
  deriving DecidableEq, Repr

/-- The integer value of an enumerator: declaration order, starting at 0. -/
def LOGGING_TYPE.val : LOGGING_TYPE → Nat
  | .ERROR => 0
  | .WARNING => 1
  | .INFO => 2
  | .DEBUG => 3

/-- The default member initialiser of `Logger::layout`. -/
def defaultLayout : List Char := "[%l] %h:%m:%s - %p:%c (%f) - %i".toList

/-- The data members of `class Logger`. -/
structure Logger where
  name : List Char
  layout : List Char
  currentType : LOGGING_TYPE
  deriving DecidableEq, Repr

/-- The constructor `Logger::Logger(std::string n)`: the name is `n`, the other two
members take their default member initialisers. -/
def Logger.ctor (n : List Char) : Logger :=
  { name := n, layout := defaultLayout, currentType := LOGGING_TYPE.INFO }

/-- The three fields of `struct tm` that `Logger::log` reads. -/
structure Tm where
  tm_hour : Int
  tm_min : Int
  tm_sec : Int
  deriving DecidableEq, Repr

/-- The terminating character of a C string. -/
def NUL : Char := Char.ofNat 0

/-- What `std::cout << v` writes for an `int` value `v`. -/
def showInt : Int → List Char
  | Int.ofNat n => Nat.toDigits 10 n
  | Int.negSucc n => '-' :: Nat.toDigits 10 (n + 1)

/-- The result of running (part of) `Logger::log`: the text written to `std::cout`,
and whether the run ended normally or read `*fmt` outside the `c_str()` buffer. -/
inductive Outcome where
  | returned (out : List Char)
  | readPastEnd (out : List Char)
  deriving DecidableEq, Repr

/-- The outcome of writing `pre` and then continuing with a run whose outcome is `o`. -/
def Outcome.after (pre : List Char) : Outcome → Outcome
  | .returned out => .returned (pre ++ out)
  | .readPastEnd out => .readPastEnd (pre ++ out)

/-! ## `Logger::log` -/

/-- The branch `else if (*fmt == 'l') { ... }`: the name of the level. -/
def levelName : LOGGING_TYPE → List Char
  | .ERROR => "ERROR".toList
  | .WARNING => "WARNING".toList
  | .INFO => "INFO".toList
  | .DEBUG => "DEBUG".toList

/-- The `if / else if` chain on the character `d` that follows a `%`: what is written. -/
def emitCode (time : Tm) (type : LOGGING_TYPE) (message file : List Char) (line : Int)
    (function : List Char) (d : Char) : List Char :=
  if d = 'h' then showInt time.tm_hour
  else if d = 'm' then showInt time.tm_min
  else if d = 's' then showInt time.tm_sec
  else if d = 'i' then message
  else if d = 'p' then file
  else if d = 'c' then showInt line
  else if d = 'f' then function
  else if d = 'l' then levelName type
  else if d = '%' then ['%']
  else []

/-- The loop `while (fmt) { ... }` of `Logger::log`. The argument is the part of the
`c_str()` buffer from `fmt` onwards (the empty list: `fmt` points beyond the buffer).
`fmt` is never null, so the loop ends only at `break`. -/
def scan (time : Tm) (type : LOGGING_TYPE) (message file : List Char) (line : Int)
    (function : List Char) : List Char → Outcome
  | [] => Outcome.readPastEnd []
  | c :: rest =>
    if c = '%' then
      match rest with
      | [] => Outcome.readPastEnd []
      | d :: rest2 =>
        Outcome.after (emitCode time type message file line function d)
          (scan time type message file line function rest2)
    else if c ≠ NUL then
      Outcome.after [c] (scan time type message file line function rest)
    else Outcome.returned []

/-- The member function `Logger::log`. -/
def Logger.log (self : Logger) (time : Tm) (type : LOGGING_TYPE) (message file : List Char)
    (line : Int) (function : List Char) : Outcome :=
  if type.val > self.currentType.val then Outcome.returned []
  else
    match scan time type message file line function (self.layout ++ [NUL]) with
    | Outcome.returned out => Outcome.returned (out ++ ['\n'])
    | Outcome.readPastEnd out => Outcome.readPastEnd out

/-- The wrapper `Logger::error`. -/
def Logger.error (self : Logger) (time : Tm) (message file : List Char) (line : Int)
    (function : List Char) : Outcome :=
  self.log time LOGGING_TYPE.ERROR message file line function

/-- The wrapper `Logger::warning`. -/
def Logger.warning (self : Logger) (time : Tm) (message file : List Char) (line : Int)
    (function : List Char) : Outcome :=
  self.log time LOGGING_TYPE.WARNING message file line function

/-- The wrapper `Logger::info`. -/
def Logger.info (self : Logger) (time : Tm) (message file : List Char) (line : Int)
    (function : List Char) : Outcome :=
  self.log time LOGGING_TYPE.INFO message file line function

/-- The wrapper `Logger::debug`. -/
def Logger.debug (self : Logger) (time : Tm) (message file : List Char) (line : Int)
    (function : List Char) : Outcome :=
  self.log time LOGGING_TYPE.DEBUG message file line function

/-- The member function `Logger::setLayout`. -/
def Logger.setLayout (self : Logger) (newLayout : List Char) : Logger :=
  { self with layout := newLayout }

/-- The member function `Logger::setLoggingType`. -/
def Logger.setLoggingType (self : Logger) (type : LOGGING_TYPE) : Logger :=
  { self with currentType := type }

/-- The member function `Logger::getName`. -/
def Logger.getName (self : Logger) : List Char := self.name

/-! ## The registry: `Logger::loggers`, `getLogger`, `deleteLogger` -/

/-- A `Logger *`: the address of a `Logger` object. -/
abbrev Ptr := Nat

/-- The part of the process state the registry works on: the free store, where cell `p`
holds `some l` when a `Logger` object `l` lives at address `p` and `none` once it has
been deleted, and the static member `Logger::loggers`. -/
structure World where
  heap : List (Option Logger)
  loggers : List Ptr
  deriving DecidableEq, Repr

/-- The state at program start: nothing allocated, `Logger::loggers` empty. -/
def World.empty : World := { heap := [], loggers := [] }

/-- The object `*p`, when `p` points to a live `Logger`. -/
def World.deref (w : World) (p : Ptr) : Option Logger := w.heap.getD p none

/-- The loop of `getLogger`: `for (auto * logger : loggers) if (logger->getName() == name)
return logger;`. The outer `none` is a dereference of a pointer to no live object; the
inner option is the pointer returned from inside the loop, if any. -/
def getLogger.loop (w : World) (name : List Char) : List Ptr → Option (Option Ptr)
  | [] => some none
  | logger :: rest =>
    match w.deref logger with
    | none => none
    | some l => if l.getName = name then some (some logger) else getLogger.loop w name rest

/-- The static member function `Logger::getLogger`: the returned pointer and the new state;
`new Logger(name)` takes the next unused address. -/
def getLogger (w : World) (name : List Char) : Option (Ptr × World) :=
  match getLogger.loop w name w.loggers with
  | none => none
  | some (some logger) => some (logger, w)
  | some none =>
    let l : Ptr := w.heap.length
    some (l, { heap := w.heap ++ [some (Logger.ctor name)], loggers := w.loggers ++ [l] })

/-- The loop of `deleteLogger`, started with the iterator at the head of the given part of
the vector: the position (counted from there) of the first element whose name is `name`. -/
def deleteLogger.loop (w : World) (name : List Char) : List Ptr → Option (Option Nat)
  | [] => some none
  | p :: rest =>
    match w.deref p with
    | none => none
    | some l =>
      if l.getName = name then some (some 0)
      else
        match deleteLogger.loop w name rest with
        | none => none
        | some none => some none
        | some (some i) => some (some (i + 1))

/-- The static member function `Logger::deleteLogger`: the returned `bool` and the new
state. `delete *i` ends the life of the object, `loggers.erase(i)` removes position `i`. -/
def deleteLogger (w : World) (name : List Char) : Option (Bool × World) :=
  match deleteLogger.loop w name w.loggers with
  | none => none
  | some none => some (false, w)
  | some (some i) =>
    some (true, { heap := w.heap.set (w.loggers.getD i 0) none,
                  loggers := w.loggers.eraseIdx i })

/-- A call `p->setLayout(newLayout)` through a pointer. -/
def World.setLayout (w : World) (p : Ptr) (newLayout : List Char) : Option World :=
  match w.deref p with
  | none => none
  | some l => some { w with heap := w.heap.set p (some (l.setLayout newLayout)) }

/-- A call `p->setLoggingType(type)` through a pointer. -/
def World.setLoggingType (w : World) (p : Ptr) (type : LOGGING_TYPE) : Option World :=
  match w.deref p with
  | none => none
  | some l => some { w with heap := w.heap.set p (some (l.setLoggingType type)) }

/-- The calls a client makes that involve the registry or change a logger. -/
inductive Op where
  | getLogger (name : List Char)
  | deleteLogger (name : List Char)
  | setLayout (p : Ptr) (newLayout : List Char)
  | setLoggingType (p : Ptr) (type : LOGGING_TYPE)
  deriving DecidableEq, Repr

/-- Whether the call is one of the two static registry functions. -/
def Op.isRegistryCall : Op → Bool
  | .getLogger _ => true
  | .deleteLogger _ => true
  | _ => false

/-- One call, its result discarded. -/
def World.step (w : World) : Op → Option World
  | .getLogger name => (Yal.getLogger w name).map Prod.snd
  | .deleteLogger name => (Yal.deleteLogger w name).map Prod.snd
  | .setLayout p t => w.setLayout p t
  | .setLoggingType p v => w.setLoggingType p v

/-- A sequence of calls, in order. -/
def World.run (w : World) : List Op → Option World
  | [] => some w
  | op :: ops =>
    match w.step op with
    | none => none
    | some w2 => World.run w2 ops

/-- A state the program can be in: the result of some sequence of calls from the start. -/
def Reachable (w : World) : Prop := ∃ ops, World.empty.run ops = some w

/-- The name of the logger `p` points to. -/
def World.nameOf (w : World) (p : Ptr) : Option (List Char) := (w.deref p).map Logger.getName

/-- Whether `p` points to a logger named `name`. -/
def World.named (w : World) (name : List Char) (p : Ptr) : Bool := w.nameOf p == some name

/-- The names of the registered loggers, in registry order. -/
def World.names (w : World) : List (List Char) := w.loggers.filterMap w.nameOf

/-- Every registered pointer points to a live logger. -/
def World.Live (w : World) : Prop := ∀ p ∈ w.loggers, (w.deref p).isSome = true

instance (w : World) : Decidable w.Live := by unfold World.Live; infer_instance

/-! ## Example states -/

/-- A sequence of registry calls. -/
def exampleCalls : List Op :=
  [Op.getLogger "a".toList, Op.getLogger "b".toList, Op.getLogger "a".toList,
   Op.deleteLogger "a".toList, Op.getLogger "a".toList, Op.deleteLogger "c".toList]

/-- The state after `exampleCalls`: the first object deleted, `b` and `a` registered. -/
def exampleWorld : World :=
  { heap := [none, some (Logger.ctor "b".toList), some (Logger.ctor "a".toList)],
    loggers := [1, 2] }

/-- Creating the logger `net` and configuring it through the returned pointer. -/
def configuringCalls : List Op :=
  [Op.getLogger "net".toList, Op.setLayout 0 "%i".toList,
   Op.setLoggingType 0 LOGGING_TYPE.DEBUG]

/-- The state after `configuringCalls`. -/
def configuredWorld : World :=
  { heap := [some { name := "net".toList, layout := "%i".toList,
                    currentType := LOGGING_TYPE.DEBUG }],
    loggers := [0] }

/-- The state after `getLogger("net")` and `setLoggingType(ERROR)` on the result. -/
def errorOnlyWorld : World :=
  { heap := [some ((Logger.ctor "net".toList).setLoggingType LOGGING_TYPE.ERROR)],
    loggers := [0] }

/-- The invariant of the registry: registered pointers are live, names pairwise distinct. -/
def Inv (w : World) : Prop := w.Live ∧ w.names.Nodup

/-! ## Predicates on templates -/

/-- Whether reading `t` from its first character, a `%` taking the next character with it
and any other character standing alone, uses up `t` exactly: no `%` is left at the end
without a character after it. -/
def endsInLiteral : List Char → Bool
  | [] => true
  | c :: rest =>
    if c = '%' then
      match rest with
      | [] => false
      | _ :: rest2 => endsInLiteral rest2
    else endsInLiteral rest

/-- The characters that select a substitution after a `%`. -/
def knownCodes : List Char := ['l', 'h', 'm', 's', 'i', 'p', 'c', 'f', '%']

/-! ## Rendering without the final newline, and the walk of `fmt` -/

/-- The text written to `std::cout` during a run, however the run ended. -/
def Outcome.written : Outcome → List Char
  | .returned out => out
  | .readPastEnd out => out

/-- The text the loop of `Logger::log` writes for the layout `t`: the rendering of `t`
without the final newline. -/
def expand (time : Tm) (type : LOGGING_TYPE) (message file : List Char) (line : Int)
    (function : List Char) (t : List Char) : List Char :=
  (scan time type message file line function (t ++ [NUL])).written

/-- The loop of `Logger::log` with the output left out and the walk of `fmt` recorded:
the characters `fmt` has stepped over (one per `fmt++`) when the loop reaches `break`,
in order; `none` when `*fmt` is read outside the buffer. Same branches as `scan`. -/
def scanConsumed : List Char → Option (List Char)
  | [] => none
  | c :: rest =>
    if c = '%' then
      match rest with
      | [] => none
      | d :: rest2 => (scanConsumed rest2).map (fun cs => c :: d :: cs)
    else if c ≠ NUL then (scanConsumed rest).map (fun cs => c :: cs)
    else some []

/-- A call `p->log(type, message, file, line, function)` through a pointer: the outcome
of the call and the state after it. `Logger::log` assigns to no member and does not touch
`Logger::loggers`. -/
def World.log (w : World) (p : Ptr) (time : Tm) (type : LOGGING_TYPE)
    (message file : List Char) (line : Int) (function : List Char) :
    Option (Outcome × World) :=
  match w.deref p with
  | none => none
  | some l => some (l.log time type message file line function, w)

/-- A call of one of the two setters of `class Logger`. -/
inductive Setter where
  | setLayout (newLayout : List Char)
  | setLoggingType (type : LOGGING_TYPE)
  deriving DecidableEq, Repr

/-- One setter call on a logger. -/
def Logger.applySetter (self : Logger) : Setter → Logger
  | .setLayout newLayout => self.setLayout newLayout
  | .setLoggingType type => self.setLoggingType type

/-- A sequence of setter calls on a logger, in order. -/
def Logger.applySetters (self : Logger) : List Setter → Logger
  | [] => self
  | c :: cs => Logger.applySetters (self.applySetter c) cs

/-- Whether the scan, started at the head of `t` in the literal position, walks over all
of `t` and is in the literal position after it: it meets no NUL in the literal position
(a NUL right after a `%` is taken as a code character) and no `%` is left at the end
without a character after it. Same branches as `scan`. -/
def readsThrough : List Char → Bool
  | [] => true
  | c :: rest =>
    if c = '%' then
      match rest with
      | [] => false
      | _ :: rest2 => readsThrough rest2
    else if c ≠ NUL then readsThrough rest
    else false

/-- The member function `Logger::log` on a machine where the characters `beyond` follow
the `c_str()` buffer in readable memory, so that a read of `*fmt` after the terminator,
which the language leaves undefined, yields these characters. With `beyond = []` this is
`Logger.log`. -/
def Logger.logOver (self : Logger) (beyond : List Char) (time : Tm) (type : LOGGING_TYPE)
    (message file : List Char) (line : Int) (function : List Char) : Outcome :=
  if type.val > self.currentType.val then Outcome.returned []
  else
    match scan time type message file line function (self.layout ++ [NUL] ++ beyond) with
    | Outcome.returned out => Outcome.returned (out ++ ['\n'])
    | Outcome.readPastEnd out => Outcome.readPastEnd out

/-! ## The specification's view of rendering -/

/-- The character for a decimal digit `d < 10`. -/
def decimalDigit (d : Nat) : Char := Char.ofNat (48 + d)

/-- The decimal representation of a number below 100 without padding: one digit below
10, otherwise the tens digit and the ones digit. -/
def unpadded (v : Nat) : List Char :=
  if v < 10 then [decimalDigit v] else [decimalDigit (v / 10), decimalDigit (v % 10)]

/-- The two states of the specification's state machine. -/
inductive SpecState where
  | LITERAL
  | AFTER_PERCENT
  deriving DecidableEq, Repr

/-- The substitution table of the specification, in its order: `l` the level name, `h`,
`m`, `s` the hour, minute and second, `i` the message, `p` the file path, `c` the line,
`f` the function, `%` a literal `%`, any other character nothing. -/
def specTable (time : Tm) (type : LOGGING_TYPE) (message file : List Char) (line : Int)
    (function : List Char) (d : Char) : List Char :=
  if d = 'l' then
    match type with
    | LOGGING_TYPE.ERROR => "ERROR".toList
    | LOGGING_TYPE.WARNING => "WARNING".toList
    | LOGGING_TYPE.INFO => "INFO".toList
    | LOGGING_TYPE.DEBUG => "DEBUG".toList
  else if d = 'h' then showInt time.tm_hour
  else if d = 'm' then showInt time.tm_min
  else if d = 's' then showInt time.tm_sec
  else if d = 'i' then message
  else if d = 'p' then file
  else if d = 'c' then showInt line
  else if d = 'f' then function
  else if d = '%' then ['%']
  else []

/-- One transition of the specification's machine: the next state and the text emitted.
`LITERAL` on `%` goes to `AFTER_PERCENT` and emits nothing; `LITERAL` on another character
emits it; `AFTER_PERCENT` on any character emits per the table and returns to `LITERAL`. -/
def specStep (time : Tm) (type : LOGGING_TYPE) (message file : List Char) (line : Int)
    (function : List Char) : SpecState → Char → SpecState × List Char
  | SpecState.LITERAL, c =>
    if c = '%' then (SpecState.AFTER_PERCENT, []) else (SpecState.LITERAL, [c])
  | SpecState.AFTER_PERCENT, c =>
    (SpecState.LITERAL, specTable time type message file line function c)

/-- The specification's machine run over the characters of a template, one transition per
character: the final state and the text emitted. -/
def specRun (time : Tm) (type : LOGGING_TYPE) (message file : List Char) (line : Int)
    (function : List Char) : SpecState → List Char → SpecState × List Char
  | st, [] => (st, [])
  | st, c :: cs =>
    ((specRun time type message file line function
        (specStep time type message file line function st c).1 cs).1,
     (specStep time type message file line function st c).2
       ++ (specRun time type message file line function
            (specStep time type message file line function st c).1 cs).2)

/-! ## Lemmas on the scan -/

section ScanLemmas

variable (time : Tm) (type : LOGGING_TYPE) (message file : List Char) (line : Int)
  (function : List Char)

theorem endsInLiteral_percent (d : Char) (rest : List Char) :
    endsInLiteral ('%' :: d :: rest) = endsInLiteral rest := by
  rw [endsInLiteral.eq_def]; simp

theorem endsInLiteral_literal (c : Char) (rest : List Char) (h : c ≠ '%') :
    endsInLiteral (c :: rest) = endsInLiteral rest := by
  rw [endsInLiteral.eq_def]; simp [h]

theorem endsInLiteral_dangling : endsInLiteral ['%'] = false := by
  rw [endsInLiteral.eq_def]; simp

theorem after_nil (o : Outcome) : Outcome.after [] o = o := by
  cases o <;> simp [Outcome.after]

theorem after_after (a b : List Char) (o : Outcome) :
    Outcome.after a (Outcome.after b o) = Outcome.after (a ++ b) o := by
  cases o <;> simp [Outcome.after]

theorem scan_percent (d : Char) (rest : List Char) :
    scan time type message file line function ('%' :: d :: rest)
      = Outcome.after (emitCode time type message file line function d)
          (scan time type message file line function rest) := by
  rw [scan.eq_def]; simp

theorem scan_literal (c : Char) (rest : List Char) (h1 : c ≠ '%') (h2 : c ≠ NUL) :
    scan time type message file line function (c :: rest)
      = Outcome.after [c] (scan time type message file line function rest) := by
  rw [scan.eq_def]; simp [h1, h2]

theorem scan_nul (rest : List Char) :
    scan time type message file line function (NUL :: rest) = Outcome.returned [] := by
  have h : NUL ≠ '%' := by decide
  rw [scan.eq_def]; simp [h]

/-- Two buffers that continue a common beginning `pre`, read up exactly, are scanned to
the same outcome when their continuations are. -/
theorem scan_append_congr (pre a b : List Char) (hpre : endsInLiteral pre = true)
    (hab : scan time type message file line function a
      = scan time type message file line function b) :
    scan time type message file line function (pre ++ a)
      = scan time type message file line function (pre ++ b) := by
  induction pre using endsInLiteral.induct with
  | case1 => simpa using hab
  | case2 => simp [endsInLiteral_dangling] at hpre
  | case3 d rest2 ih =>
    rw [endsInLiteral_percent] at hpre
    simp only [List.cons_append, scan_percent, ih hpre]
  | case4 c rest hc ih =>
    rw [endsInLiteral_literal c rest hc] at hpre
    by_cases hn : c = NUL
    · subst hn
      simp only [List.cons_append, scan_nul]
    · simp only [List.cons_append, scan_literal _ _ _ _ _ _ c _ hc hn, ih hpre]

/-- On a template that is read up exactly the loop reaches `break`. -/
theorem scan_returns (t : List Char) (ht : endsInLiteral t = true) :
    ∃ out, scan time type message file line function (t ++ [NUL]) = Outcome.returned out := by
  induction t using endsInLiteral.induct with
  | case1 => exact ⟨[], by simp [scan_nul]⟩
  | case2 => simp [endsInLiteral_dangling] at ht
  | case3 d rest2 ih =>
    rw [endsInLiteral_percent] at ht
    obtain ⟨out, hout⟩ := ih ht
    exact ⟨emitCode time type message file line function d ++ out, by
      simp only [List.cons_append, scan_percent, hout, Outcome.after]⟩
  | case4 c rest hc ih =>
    rw [endsInLiteral_literal c rest hc] at ht
    by_cases hn : c = NUL
    · subst hn
      exact ⟨[], by simp only [List.cons_append, scan_nul]⟩
    · obtain ⟨out, hout⟩ := ih ht
      exact ⟨c :: out, by
        simp [scan_literal _ _ _ _ _ _ c _ hc hn, hout, Outcome.after]⟩

theorem emitCode_unknown (x : Char) (hx : x ∉ knownCodes) :
    emitCode time type message file line function x = [] := by
  simp only [knownCodes, List.mem_cons, List.mem_singleton, List.not_mem_nil, or_false,
    not_or] at hx
  obtain ⟨hl, hh, hm, hs, hi, hp, hc, hf, hpc⟩ := hx
  simp [emitCode, hl, hh, hm, hs, hi, hp, hc, hf, hpc]

end ScanLemmas

/-! ## The level filter of `Logger::log` -/

theorem log_filtered (self : Logger) (time : Tm) (type : LOGGING_TYPE)
    (message file : List Char) (line : Int) (function : List Char)
    (h : self.currentType.val < type.val) :
    self.log time type message file line function = Outcome.returned [] := by
  simp [Logger.log, h]

theorem log_passed (self : Logger) (time : Tm) (type : LOGGING_TYPE)
    (message file : List Char) (line : Int) (function : List Char)
    (h : type.val ≤ self.currentType.val) :
    self.log time type message file line function
      = match scan time type message file line function (self.layout ++ [NUL]) with
        | Outcome.returned out => Outcome.returned (out ++ ['\n'])
        | Outcome.readPastEnd out => Outcome.readPastEnd out := by
  have h2 : ¬ type.val > self.currentType.val := by omega
  simp only [Logger.log, h2, if_false]

/-- C1. A call of `log` at level `type` on a logger with threshold `currentType` returns
without writing anything exactly when `type > currentType`; on every layout that is read
up exactly it writes a text ending in a newline exactly when `type <= currentType`. With
threshold `ERROR` only `ERROR` calls get past the filter, with `DEBUG` all four levels do. -/
theorem log_emits_iff_le (self : Logger) (time : Tm) (type : LOGGING_TYPE)
    (message file : List Char) (line : Int) (function : List Char) :
    (self.log time type message file line function = Outcome.returned []
        ↔ self.currentType.val < type.val)
    ∧ (endsInLiteral self.layout = true →
        ((∃ out, self.log time type message file line function
            = Outcome.returned (out ++ ['\n'])) ↔ type.val ≤ self.currentType.val))
    ∧ (self.currentType = LOGGING_TYPE.ERROR →
        (self.log time type message file line function ≠ Outcome.returned []
          ↔ type = LOGGING_TYPE.ERROR))
    ∧ (self.currentType = LOGGING_TYPE.DEBUG →
        self.log time type message file line function ≠ Outcome.returned []) := by
  have key : self.log time type message file line function = Outcome.returned []
      ↔ self.currentType.val < type.val := by
    constructor
    · intro h
      by_contra hlt
      rw [log_passed self time type message file line function (by omega)] at h
      cases hs : scan time type message file line function (self.layout ++ [NUL]) with
      | returned out => rw [hs] at h; simp at h
      | readPastEnd out => rw [hs] at h; simp at h
    · exact log_filtered self time type message file line function
  refine ⟨key, ?_, ?_, ?_⟩
  · intro hlay
    constructor
    · rintro ⟨out, hout⟩
      by_contra hlt
      rw [log_filtered self time type message file line function (by omega)] at hout
      simp at hout
    · intro hle
      obtain ⟨out, hout⟩ := scan_returns time type message file line function self.layout hlay
      exact ⟨out, by rw [log_passed self time type message file line function hle, hout]⟩
  · intro hT
    rw [Ne, key, hT]
    cases type <;> simp [LOGGING_TYPE.val]
  · intro hT
    rw [Ne, key, hT]
    cases type <;> simp [LOGGING_TYPE.val]

/-- A logger with the default layout and the threshold `ERROR`, and an `INFO` call: the
default layout is read up exactly, and the call writes no line. -/
theorem log_emits_iff_le_witness :
    endsInLiteral ((Logger.ctor "net".toList).setLoggingType LOGGING_TYPE.ERROR).layout = true
    ∧ ((∃ out, ((Logger.ctor "net".toList).setLoggingType LOGGING_TYPE.ERROR).log ⟨14, 3, 7⟩
            LOGGING_TYPE.INFO "ignored".toList "conn.c".toList 42 "send".toList
          = Outcome.returned (out ++ ['\n']))
        ↔ LOGGING_TYPE.INFO.val ≤ LOGGING_TYPE.ERROR.val) :=
  ⟨by decide,
   (log_emits_iff_le ((Logger.ctor "net".toList).setLoggingType LOGGING_TYPE.ERROR) ⟨14, 3, 7⟩
      LOGGING_TYPE.INFO "ignored".toList "conn.c".toList 42 "send".toList).2.1 (by decide)⟩

/-! ## Rendering -/

theorem defaultLayout_eq : defaultLayout
    = ['[', '%', 'l', ']', ' ', '%', 'h', ':', '%', 'm', ':', '%', 's', ' ', '-', ' ',
       '%', 'p', ':', '%', 'c', ' ', '(', '%', 'f', ')', ' ', '-', ' ', '%', 'i'] := by
  decide

/-- C8. With the default layout, a call that passes the filter writes
`[LEVEL] h:m:s - file:line (function) - message` and a newline, the numbers in unpadded
decimal. -/
theorem log_default_layout (self : Logger) (time : Tm) (type : LOGGING_TYPE)
    (message file : List Char) (line : Int) (function : List Char)
    (hlayout : self.layout = defaultLayout) (hpass : type.val ≤ self.currentType.val) :
    self.log time type message file line function
      = Outcome.returned ("[".toList ++ levelName type ++ "] ".toList
          ++ showInt time.tm_hour ++ ":".toList ++ showInt time.tm_min ++ ":".toList
          ++ showInt time.tm_sec ++ " - ".toList ++ file ++ ":".toList ++ showInt line
          ++ " (".toList ++ function ++ ") - ".toList ++ message ++ "\n".toList) := by
  rw [log_passed self time type message file line function hpass, hlayout, defaultLayout_eq]
  have h0 : scan time type message file line function [Char.ofNat 0] = Outcome.returned [] :=
    scan_nul time type message file line function []
  simp [scan_percent, scan_literal, h0, emitCode, Outcome.after, NUL]

/-- The call `error("boom", "conn.c", 42, "send")` at 14:03:07 on a fresh logger. -/
theorem log_default_layout_witness :
    (Logger.ctor "net".toList).layout = defaultLayout
    ∧ LOGGING_TYPE.ERROR.val ≤ (Logger.ctor "net".toList).currentType.val
    ∧ (Logger.ctor "net".toList).error ⟨14, 3, 7⟩ "boom".toList "conn.c".toList 42 "send".toList
        = Outcome.returned "[ERROR] 14:3:7 - conn.c:42 (send) - boom\n".toList :=
  ⟨rfl, by decide,
   (log_default_layout (Logger.ctor "net".toList) ⟨14, 3, 7⟩ LOGGING_TYPE.ERROR "boom".toList
      "conn.c".toList 42 "send".toList rfl (by decide)).trans (by decide)⟩

/-- C9. When the character `x` after a `%` that starts an escape is none of
`l h m s i p c f %`, the call behaves as on the template without the `%` and `x`:
neither of the two characters is written. -/
theorem log_unknown_code_vanishes (self : Logger) (time : Tm) (type : LOGGING_TYPE)
    (message file : List Char) (line : Int) (function : List Char)
    (x : Char) (pre post : List Char)
    (hx : x ∉ knownCodes) (hpre : endsInLiteral pre = true) :
    (self.setLayout (pre ++ '%' :: x :: post)).log time type message file line function
      = (self.setLayout (pre ++ post)).log time type message file line function := by
  have hscan : scan time type message file line function ((pre ++ '%' :: x :: post) ++ [NUL])
      = scan time type message file line function ((pre ++ post) ++ [NUL]) := by
    rw [List.append_assoc, List.append_assoc]
    apply scan_append_congr time type message file line function pre _ _ hpre
    rw [List.cons_append, List.cons_append, scan_percent,
      emitCode_unknown time type message file line function x hx, after_nil]
  simp only [Logger.log, Logger.setLayout, hscan]

/-- The template `%x-%i` with the message `hi` renders `-hi` and a newline. -/
theorem log_unknown_code_vanishes_witness :
    'x' ∉ knownCodes ∧ endsInLiteral [] = true
    ∧ ((Logger.ctor "net".toList).setLayout "%x-%i".toList).log ⟨14, 3, 7⟩ LOGGING_TYPE.INFO
          "hi".toList "conn.c".toList 42 "send".toList
        = Outcome.returned "-hi\n".toList :=
  ⟨by decide, by decide,
   (log_unknown_code_vanishes (Logger.ctor "net".toList) ⟨14, 3, 7⟩ LOGGING_TYPE.INFO
      "hi".toList "conn.c".toList 42 "send".toList 'x' [] "-%i".toList
      (by decide) (by decide)).trans (by decide)⟩

theorem scan_dangling_percent (time : Tm) (type : LOGGING_TYPE) (message file : List Char)
    (line : Int) (function : List Char) (t : List Char)
    (hnul : NUL ∉ t) (ht : endsInLiteral t = true) :
    ∃ out, scan time type message file line function (t ++ [NUL]) = Outcome.returned out
      ∧ scan time type message file line function ((t ++ ['%']) ++ [NUL])
          = Outcome.readPastEnd out := by
  induction t using endsInLiteral.induct with
  | case1 =>
    refine ⟨[], by simp [scan_nul], ?_⟩
    have h0 : emitCode time type message file line function NUL = [] :=
      emitCode_unknown time type message file line function NUL (by decide)
    simp [scan_percent, h0, scan, Outcome.after]
  | case2 => simp [endsInLiteral_dangling] at ht
  | case3 d rest2 ih =>
    rw [endsInLiteral_percent] at ht
    have hnul2 : NUL ∉ rest2 := fun h => hnul (by simp [h])
    obtain ⟨out, h1, h2⟩ := ih hnul2 ht
    refine ⟨emitCode time type message file line function d ++ out, ?_, ?_⟩
    · simp only [List.cons_append, scan_percent, h1, Outcome.after]
    · simp only [List.cons_append, scan_percent, h2, Outcome.after]
  | case4 c rest hc ih =>
    rw [endsInLiteral_literal c rest hc] at ht
    have hn : c ≠ NUL := fun h => hnul (by simp [h])
    have hnul2 : NUL ∉ rest := fun h => hnul (by simp [h])
    obtain ⟨out, h1, h2⟩ := ih hnul2 ht
    refine ⟨c :: out, ?_, ?_⟩
    · simp [scan_literal _ _ _ _ _ _ c _ hc hn, h1, Outcome.after]
    · simp only [List.cons_append, scan_literal _ _ _ _ _ _ c _ hc hn, h2, Outcome.after,
        List.singleton_append, List.nil_append]

/-- C10. On a template `t ++ "%"` whose final `%` starts an escape (`t` without NUL and
read up exactly), a call that passes the filter writes what the template `t` writes before
its newline and then reads `*fmt` beyond the terminator of the buffer; it never reaches
the final newline. -/
theorem log_dangling_percent_reads_past_end (self : Logger) (time : Tm) (type : LOGGING_TYPE)
    (message file : List Char) (line : Int) (function : List Char) (t : List Char)
    (hnul : NUL ∉ t) (ht : endsInLiteral t = true) (hpass : type.val ≤ self.currentType.val) :
    ∃ out, (self.setLayout t).log time type message file line function
          = Outcome.returned (out ++ ['\n'])
      ∧ (self.setLayout (t ++ ['%'])).log time type message file line function
          = Outcome.readPastEnd out := by
  obtain ⟨out, h1, h2⟩ := scan_dangling_percent time type message file line function t hnul ht
  refine ⟨out, ?_, ?_⟩
  · rw [log_passed _ time type message file line function (by simpa [Logger.setLayout] using hpass)]
    simp only [Logger.setLayout, h1]
  · rw [log_passed _ time type message file line function (by simpa [Logger.setLayout] using hpass)]
    simp only [Logger.setLayout, h2]

/-- The layout `abc%`: `abc` is written, then the scan leaves the buffer. -/
theorem log_dangling_percent_reads_past_end_witness :
    NUL ∉ "abc".toList ∧ endsInLiteral "abc".toList = true
    ∧ LOGGING_TYPE.ERROR.val ≤ (Logger.ctor "net".toList).currentType.val
    ∧ (∃ out, ((Logger.ctor "net".toList).setLayout "abc".toList).log ⟨14, 3, 7⟩
            LOGGING_TYPE.ERROR "boom".toList "conn.c".toList 42 "send".toList
          = Outcome.returned (out ++ ['\n'])
        ∧ ((Logger.ctor "net".toList).setLayout ("abc".toList ++ ['%'])).log ⟨14, 3, 7⟩
            LOGGING_TYPE.ERROR "boom".toList "conn.c".toList 42 "send".toList
          = Outcome.readPastEnd out)
    ∧ ((Logger.ctor "net".toList).setLayout "abc%".toList).log ⟨14, 3, 7⟩
          LOGGING_TYPE.ERROR "boom".toList "conn.c".toList 42 "send".toList
        = Outcome.readPastEnd "abc".toList
    ∧ ((Logger.ctor "net".toList).setLayout "%".toList).log ⟨14, 3, 7⟩
          LOGGING_TYPE.ERROR "boom".toList "conn.c".toList 42 "send".toList
        = Outcome.readPastEnd [] :=
  ⟨by decide, by decide, by decide,
   log_dangling_percent_reads_past_end (Logger.ctor "net".toList) ⟨14, 3, 7⟩
      LOGGING_TYPE.ERROR "boom".toList "conn.c".toList 42 "send".toList "abc".toList
      (by decide) (by decide) (by decide),
   by decide, by decide⟩

/-! ## Lemmas on the registry -/

theorem deref_lt (w : World) (p : Ptr) (h : (w.deref p).isSome = true) :
    p < w.heap.length := by
  by_contra hge
  have h0 : w.heap[p]? = none := List.getElem?_eq_none (Nat.le_of_not_lt hge)
  simp [World.deref, h0] at h

theorem deref_heap_length (w : World) : w.deref w.heap.length = none := by
  simp [World.deref]

theorem deref_push (heap : List (Option Logger)) (ls ls2 : List Ptr) (x : Option Logger)
    (q : Ptr) (h : q < heap.length) :
    World.deref { heap := heap ++ [x], loggers := ls2 } q
      = World.deref { heap := heap, loggers := ls } q := by
  simp [World.deref, List.getElem?_append_left h]

theorem deref_push_new (heap : List (Option Logger)) (ls2 : List Ptr) (x : Option Logger) :
    World.deref { heap := heap ++ [x], loggers := ls2 } heap.length = x := by
  simp [World.deref]

theorem deref_set_ne (heap : List (Option Logger)) (ls ls2 : List Ptr) (x : Option Logger)
    (p q : Ptr) (h : q ≠ p) :
    World.deref { heap := heap.set p x, loggers := ls2 } q
      = World.deref { heap := heap, loggers := ls } q := by
  simp [World.deref, List.getElem?_set_ne (Ne.symm h)]

theorem deref_set_self (heap : List (Option Logger)) (ls2 : List Ptr) (x : Option Logger)
    (p : Ptr) (h : p < heap.length) :
    World.deref { heap := heap.set p x, loggers := ls2 } p = x := by
  simp [World.deref, List.getElem?_set_self h]

theorem nameOf_congr (w w2 : World) (q : Ptr) (h : w2.deref q = w.deref q) :
    w2.nameOf q = w.nameOf q := by
  simp [World.nameOf, h]

theorem named_congr (w w2 : World) (n : List Char) (q : Ptr) (h : w2.deref q = w.deref q) :
    w2.named n q = w.named n q := by
  simp [World.named, World.nameOf, h]

theorem named_true_iff (w : World) (n : List Char) (q : Ptr) :
    w.named n q = true ↔ ∃ l, w.deref q = some l ∧ l.getName = n := by
  unfold World.named World.nameOf
  cases h : w.deref q <;> simp

theorem named_false_of_live (w : World) (n : List Char) (q : Ptr)
    (hl : (w.deref q).isSome = true) (h : w.named n q = false) :
    ∃ l, w.deref q = some l ∧ l.getName ≠ n := by
  cases hd : w.deref q with
  | none => simp [hd] at hl
  | some l =>
    refine ⟨l, rfl, fun hn => ?_⟩
    have : w.named n q = true := (named_true_iff w n q).2 ⟨l, hd, hn⟩
    simp [this] at h

theorem named_iff_nameOf (w : World) (n : List Char) (q : Ptr) :
    w.named n q = true ↔ w.nameOf q = some n := by
  simp [World.named]

theorem mem_names_iff (w : World) (n : List Char) :
    n ∈ w.names ↔ ∃ q ∈ w.loggers, w.named n q = true := by
  simp [World.names, List.mem_filterMap, named_iff_nameOf]

/-- A list either has no element satisfying `P` or splits at the first one that does. -/
theorem first_match (P : Ptr → Bool) (l : List Ptr) :
    (∀ q ∈ l, P q = false)
      ∨ ∃ pre p post, l = pre ++ p :: post ∧ (∀ q ∈ pre, P q = false) ∧ P p = true := by
  induction l with
  | nil => exact Or.inl (by simp)
  | cons a l ih =>
    by_cases ha : P a = true
    · exact Or.inr ⟨[], a, l, rfl, by simp, ha⟩
    · have ha2 : P a = false := by simpa using ha
      rcases ih with hall | ⟨pre, p, post, hl, hpre, hp⟩
      · exact Or.inl (by
          intro q hq
          rcases List.mem_cons.1 hq with rfl | hq
          · exact ha2
          · exact hall q hq)
      · refine Or.inr ⟨a :: pre, p, post, by simp [hl], ?_, hp⟩
        intro q hq
        rcases List.mem_cons.1 hq with rfl | hq
        · exact ha2
        · exact hpre q hq

theorem getLogger_loop_missing (w : World) (n : List Char) (ps : List Ptr)
    (hl : ∀ q ∈ ps, (w.deref q).isSome = true) (hn : ∀ q ∈ ps, w.named n q = false) :
    getLogger.loop w n ps = some none := by
  induction ps with
  | nil => rfl
  | cons q qs ih =>
    obtain ⟨l, hd, hne⟩ := named_false_of_live w n q (hl q (List.mem_cons_self _ _))
      (hn q (List.mem_cons_self _ _))
    simp only [getLogger.loop, hd, hne, if_false]
    exact ih (fun p hp => hl p (List.mem_cons_of_mem _ hp))
      (fun p hp => hn p (List.mem_cons_of_mem _ hp))

theorem getLogger_loop_found (w : World) (n : List Char) (pre : List Ptr) (p : Ptr)
    (post : List Ptr) (hl : ∀ q ∈ pre, (w.deref q).isSome = true)
    (hn : ∀ q ∈ pre, w.named n q = false) (hp : w.named n p = true) :
    getLogger.loop w n (pre ++ p :: post) = some (some p) := by
  induction pre with
  | nil =>
    obtain ⟨l, hd, hname⟩ := (named_true_iff w n p).1 hp
    simp [getLogger.loop, hd, hname]
  | cons q qs ih =>
    obtain ⟨l, hd, hne⟩ := named_false_of_live w n q (hl q (List.mem_cons_self _ _))
      (hn q (List.mem_cons_self _ _))
    simp only [List.cons_append, getLogger.loop, hd, hne, if_false]
    exact ih (fun p hp => hl p (List.mem_cons_of_mem _ hp))
      (fun p hp => hn p (List.mem_cons_of_mem _ hp))

theorem deleteLogger_loop_missing (w : World) (n : List Char) (ps : List Ptr)
    (hl : ∀ q ∈ ps, (w.deref q).isSome = true) (hn : ∀ q ∈ ps, w.named n q = false) :
    deleteLogger.loop w n ps = some none := by
  induction ps with
  | nil => rfl
  | cons q qs ih =>
    obtain ⟨l, hd, hne⟩ := named_false_of_live w n q (hl q (List.mem_cons_self _ _))
      (hn q (List.mem_cons_self _ _))
    simp only [deleteLogger.loop, hd, hne, if_false]
    rw [ih (fun p hp => hl p (List.mem_cons_of_mem _ hp))
      (fun p hp => hn p (List.mem_cons_of_mem _ hp))]

theorem deleteLogger_loop_found (w : World) (n : List Char) (pre : List Ptr) (p : Ptr)
    (post : List Ptr) (hl : ∀ q ∈ pre, (w.deref q).isSome = true)
    (hn : ∀ q ∈ pre, w.named n q = false) (hp : w.named n p = true) :
    deleteLogger.loop w n (pre ++ p :: post) = some (some pre.length) := by
  induction pre with
  | nil =>
    obtain ⟨l, hd, hname⟩ := (named_true_iff w n p).1 hp
    simp [deleteLogger.loop, hd, hname]
  | cons q qs ih =>
    obtain ⟨l, hd, hne⟩ := named_false_of_live w n q (hl q (List.mem_cons_self _ _))
      (hn q (List.mem_cons_self _ _))
    have ih2 := ih (fun p hp => hl p (List.mem_cons_of_mem _ hp))
      (fun p hp => hn p (List.mem_cons_of_mem _ hp))
    rw [List.cons_append, deleteLogger.loop]
    simp only [hd, hne, if_false, ih2, List.length_cons]

/-- What `getLogger` does on a state whose registered pointers are live. -/
theorem getLogger_cases (w : World) (n : List Char) (hl : w.Live) :
    (∃ pre p post, w.loggers = pre ++ p :: post ∧ (∀ q ∈ pre, w.named n q = false)
        ∧ w.named n p = true ∧ getLogger w n = some (p, w))
    ∨ ((∀ q ∈ w.loggers, w.named n q = false)
        ∧ getLogger w n = some (w.heap.length,
            { heap := w.heap ++ [some (Logger.ctor n)],
              loggers := w.loggers ++ [w.heap.length] })) := by
  rcases first_match (w.named n) w.loggers with hall | ⟨pre, p, post, hsplit, hpre, hp⟩
  · refine Or.inr ⟨hall, ?_⟩
    simp only [getLogger, getLogger_loop_missing w n w.loggers hl hall]
  · refine Or.inl ⟨pre, p, post, hsplit, hpre, hp, ?_⟩
    have hlpre : ∀ q ∈ pre, (w.deref q).isSome = true := fun q hq =>
      hl q (by rw [hsplit]; exact List.mem_append_left _ hq)
    have hloop := getLogger_loop_found w n pre p post hlpre hpre hp
    rw [← hsplit] at hloop
    simp only [getLogger, hloop]

/-- What `deleteLogger` does on a state whose registered pointers are live. -/
theorem deleteLogger_cases (w : World) (n : List Char) (hl : w.Live) :
    (∃ pre p post, w.loggers = pre ++ p :: post ∧ (∀ q ∈ pre, w.named n q = false)
        ∧ w.named n p = true
        ∧ deleteLogger w n = some (true,
            { heap := w.heap.set p none, loggers := pre ++ post }))
    ∨ ((∀ q ∈ w.loggers, w.named n q = false) ∧ deleteLogger w n = some (false, w)) := by
  rcases first_match (w.named n) w.loggers with hall | ⟨pre, p, post, hsplit, hpre, hp⟩
  · refine Or.inr ⟨hall, ?_⟩
    simp only [deleteLogger, deleteLogger_loop_missing w n w.loggers hl hall]
  · refine Or.inl ⟨pre, p, post, hsplit, hpre, hp, ?_⟩
    have hlpre : ∀ q ∈ pre, (w.deref q).isSome = true := fun q hq =>
      hl q (by rw [hsplit]; exact List.mem_append_left _ hq)
    have hloop := deleteLogger_loop_found w n pre p post hlpre hpre hp
    rw [← hsplit] at hloop
    simp only [deleteLogger, hloop]
    have h1 : w.loggers.getD pre.length 0 = p := by
      rw [hsplit, List.getD_eq_getElem?_getD, List.getElem?_append_right (Nat.le_refl _)]
      simp
    have h2 : w.loggers.eraseIdx pre.length = pre ++ post := by
      rw [hsplit, List.eraseIdx_append_of_length_le (Nat.le_refl _)]
      simp
    rw [h1, h2]

theorem named_false_iff (w : World) (n : List Char) (q : Ptr) :
    w.named n q = false ↔ w.nameOf q ≠ some n := by
  rw [Ne, ← named_iff_nameOf]; simp

theorem not_mem_names (w : World) (n : List Char) (h : n ∉ w.names) :
    ∀ q ∈ w.loggers, w.named n q = false := by
  intro q hq
  by_contra hc
  exact h ((mem_names_iff w n).2 ⟨q, hq, by simpa using hc⟩)

/-- Deleting the first logger named `n` from a state with live registered pointers and
pairwise distinct names: no logger named `n` remains, the remaining pointers are live and
the remaining names pairwise distinct. -/
theorem delete_found_facts (w : World) (n : List Char) (pre : List Ptr) (p : Ptr)
    (post : List Ptr) (hl : w.Live) (hsplit : w.loggers = pre ++ p :: post)
    (hpre : ∀ q ∈ pre, w.named n q = false) (hp : w.named n p = true)
    (hnd : w.names.Nodup) :
    n ∉ World.names { heap := w.heap.set p none, loggers := pre ++ post }
      ∧ World.Live { heap := w.heap.set p none, loggers := pre ++ post }
      ∧ (World.names { heap := w.heap.set p none, loggers := pre ++ post }).Nodup := by
  have hpn : w.nameOf p = some n := (named_iff_nameOf w n p).1 hp
  have hother : ∀ q, q ≠ p →
      World.deref { heap := w.heap.set p none, loggers := pre ++ post } q = w.deref q :=
    fun q hq => deref_set_ne w.heap w.loggers _ none p q hq
  have hnames : w.names = pre.filterMap w.nameOf ++ n :: post.filterMap w.nameOf := by
    simp [World.names, hsplit, List.filterMap_append, List.filterMap_cons, hpn]
  have hnd0 := hnd
  rw [hnames] at hnd
  have hnpost : n ∉ post.filterMap w.nameOf :=
    (List.nodup_cons.1 (List.nodup_append.1 hnd).2.1).1
  have hppre : p ∉ pre := fun hmem => by
    have := hpre p hmem
    rw [hp] at this
    simp at this
  have hppost : p ∉ post := fun hmem =>
    hnpost (List.mem_filterMap.2 ⟨p, hmem, hpn⟩)
  have hne : ∀ q ∈ pre ++ post, q ≠ p := by
    intro q hq hqp
    subst hqp
    rcases List.mem_append.1 hq with h | h
    · exact hppre h
    · exact hppost h
  refine ⟨?_, ?_, ?_⟩
  · intro hmem
    obtain ⟨q, hq, hqn⟩ := (mem_names_iff _ n).1 hmem
    have hq2 : q ∈ pre ++ post := hq
    rw [named_congr w _ n q (hother q (hne q hq2))] at hqn
    rcases List.mem_append.1 hq2 with h | h
    · rw [hpre q h] at hqn
      simp at hqn
    · exact hnpost (List.mem_filterMap.2 ⟨q, h, (named_iff_nameOf w n q).1 hqn⟩)
  · intro q hq
    have hq2 : q ∈ pre ++ post := hq
    rw [hother q (hne q hq2)]
    apply hl q
    rw [hsplit]
    rcases List.mem_append.1 hq2 with h | h
    · exact List.mem_append_left _ h
    · exact List.mem_append_right _ (List.mem_cons_of_mem _ h)
  · have hcongr : World.names { heap := w.heap.set p none, loggers := pre ++ post }
        = (pre ++ post).filterMap w.nameOf :=
      List.filterMap_congr (fun q hq => nameOf_congr w _ q (hother q (hne q hq)))
    rw [hcongr]
    have hsub : List.Sublist ((pre ++ post).filterMap w.nameOf) w.names := by
      rw [World.names, hsplit]
      exact List.Sublist.filterMap _
        (List.Sublist.append (List.Sublist.refl pre) (List.sublist_cons_self p post))
    exact List.Nodup.sublist hsub hnd0

/-- Creating a logger named `n` in a state with live registered pointers and pairwise
distinct names, none of them `n`: the pointers stay live and the names pairwise distinct. -/
theorem create_facts (w : World) (n : List Char) (hl : w.Live)
    (hall : ∀ q ∈ w.loggers, w.named n q = false) (hnd : w.names.Nodup) :
    World.Live { heap := w.heap ++ [some (Logger.ctor n)],
                 loggers := w.loggers ++ [w.heap.length] }
      ∧ (World.names { heap := w.heap ++ [some (Logger.ctor n)],
                       loggers := w.loggers ++ [w.heap.length] }).Nodup := by
  have hsame : ∀ q ∈ w.loggers,
      World.deref { heap := w.heap ++ [some (Logger.ctor n)],
                    loggers := w.loggers ++ [w.heap.length] } q = w.deref q :=
    fun q hq => deref_push w.heap w.loggers _ _ q (deref_lt w q (hl q hq))
  have hnew : World.deref { heap := w.heap ++ [some (Logger.ctor n)],
                            loggers := w.loggers ++ [w.heap.length] } w.heap.length
      = some (Logger.ctor n) :=
    deref_push_new _ _ _
  constructor
  · intro q hq
    rcases List.mem_append.1 hq with h | h
    · rw [hsame q h]; exact hl q h
    · rw [List.mem_singleton.1 h, hnew]; rfl
  · have hnames : World.names { heap := w.heap ++ [some (Logger.ctor n)],
                                loggers := w.loggers ++ [w.heap.length] }
        = w.names ++ [n] := by
      have h1 : List.filterMap (World.nameOf { heap := w.heap ++ [some (Logger.ctor n)],
                                               loggers := w.loggers ++ [w.heap.length] })
          w.loggers = w.names :=
        List.filterMap_congr (fun q hq => nameOf_congr w _ q (hsame q hq))
      have h2 : World.nameOf { heap := w.heap ++ [some (Logger.ctor n)],
                               loggers := w.loggers ++ [w.heap.length] } w.heap.length
          = some n := by
        rw [World.nameOf, hnew]; rfl
      simp only [World.names, List.filterMap_append, List.filterMap_cons, List.filterMap_nil]
      rw [h2]
      simp only [World.names] at h1
      rw [h1]
    rw [hnames]
    have hnot : n ∉ w.names := by
      intro hmem
      obtain ⟨q, hq, hqn⟩ := (mem_names_iff w n).1 hmem
      rw [hall q hq] at hqn
      simp at hqn
    exact List.nodup_append.2 ⟨hnd, List.nodup_singleton n, by
      intro a ha hb
      rw [List.mem_singleton.1 hb] at ha
      exact hnot ha⟩

/-- Replacing the object at `p` by one of the same name changes no name and keeps every
live pointer live. -/
theorem set_same_name_facts (w : World) (p : Ptr) (l l2 : Logger) (hd : w.deref p = some l)
    (hname : l2.getName = l.getName) (hl : w.Live) (hnd : w.names.Nodup) :
    World.Live { heap := w.heap.set p (some l2), loggers := w.loggers }
      ∧ (World.names { heap := w.heap.set p (some l2), loggers := w.loggers }).Nodup := by
  have hp : World.deref { heap := w.heap.set p (some l2), loggers := w.loggers } p = some l2 :=
    deref_set_self w.heap _ _ p (deref_lt w p (by simp [hd]))
  have hother : ∀ q, q ≠ p →
      World.deref { heap := w.heap.set p (some l2), loggers := w.loggers } q = w.deref q :=
    fun q hq => deref_set_ne w.heap w.loggers _ _ p q hq
  have hnameOf : ∀ q,
      World.nameOf { heap := w.heap.set p (some l2), loggers := w.loggers } q = w.nameOf q := by
    intro q
    by_cases hq : q = p
    · subst hq
      simp [World.nameOf, hp, hd, hname]
    · exact nameOf_congr w _ q (hother q hq)
  constructor
  · intro q hq
    by_cases hqp : q = p
    · subst hqp
      rw [hp]; rfl
    · rw [hother q hqp]; exact hl q hq
  · have hnames : World.names { heap := w.heap.set p (some l2), loggers := w.loggers }
        = w.names := List.filterMap_congr (fun q _ => hnameOf q)
    rw [hnames]; exact hnd

theorem inv_empty : Inv World.empty := by
  constructor
  · intro q hq
    simp [World.empty] at hq
  · simp [World.empty, World.names]

theorem inv_step (w w2 : World) (op : Op) (hinv : Inv w) (hstep : w.step op = some w2) :
    Inv w2 := by
  obtain ⟨hl, hnd⟩ := hinv
  cases op with
  | getLogger n =>
    rcases getLogger_cases w n hl with ⟨_, p, _, _, _, _, hget⟩ | ⟨hall, hget⟩
    · simp only [World.step, hget, Option.map_some', Option.some.injEq] at hstep
      rw [← hstep]; exact ⟨hl, hnd⟩
    · simp only [World.step, hget, Option.map_some', Option.some.injEq] at hstep
      rw [← hstep]; exact create_facts w n hl hall hnd
  | deleteLogger n =>
    rcases deleteLogger_cases w n hl with ⟨pre, p, post, hsplit, hpre, hp, hdel⟩ | ⟨_, hdel⟩
    · simp only [World.step, hdel, Option.map_some', Option.some.injEq] at hstep
      rw [← hstep]; exact (delete_found_facts w n pre p post hl hsplit hpre hp hnd).2
    · simp only [World.step, hdel, Option.map_some', Option.some.injEq] at hstep
      rw [← hstep]; exact ⟨hl, hnd⟩
  | setLayout p t =>
    cases hd : w.deref p with
    | none => simp [World.step, World.setLayout, hd] at hstep
    | some l =>
      simp only [World.step, World.setLayout, hd, Option.some.injEq] at hstep
      rw [← hstep]
      exact set_same_name_facts w p l (l.setLayout t) hd rfl hl hnd
  | setLoggingType p v =>
    cases hd : w.deref p with
    | none => simp [World.step, World.setLoggingType, hd] at hstep
    | some l =>
      simp only [World.step, World.setLoggingType, hd, Option.some.injEq] at hstep
      rw [← hstep]
      exact set_same_name_facts w p l (l.setLoggingType v) hd rfl hl hnd

theorem inv_run (ops : List Op) (w w2 : World) (hinv : Inv w)
    (hrun : w.run ops = some w2) : Inv w2 := by
  induction ops generalizing w with
  | nil =>
    simp only [World.run, Option.some.injEq] at hrun
    rw [← hrun]; exact hinv
  | cons op ops ih =>
    cases hs : w.step op with
    | none => simp [World.run, hs] at hrun
    | some w1 =>
      simp only [World.run, hs] at hrun
      exact ih w1 (inv_step w w1 op hinv hs) hrun

theorem inv_of_reachable (w : World) (h : Reachable w) : Inv w := by
  obtain ⟨ops, hrun⟩ := h
  exact inv_run ops World.empty w inv_empty hrun

theorem step_registry_total (w : World) (op : Op) (hl : w.Live)
    (hop : op.isRegistryCall = true) : ∃ w2, w.step op = some w2 := by
  cases op with
  | getLogger n =>
    rcases getLogger_cases w n hl with ⟨_, p, _, _, _, _, hget⟩ | ⟨_, hget⟩
    · exact ⟨_, by rw [World.step, hget]; rfl⟩
    · exact ⟨_, by rw [World.step, hget]; rfl⟩
  | deleteLogger n =>
    rcases deleteLogger_cases w n hl with ⟨_, p, _, _, _, _, hdel⟩ | ⟨_, hdel⟩
    · exact ⟨_, by rw [World.step, hdel]; rfl⟩
    · exact ⟨_, by rw [World.step, hdel]; rfl⟩
  | setLayout p t => simp [Op.isRegistryCall] at hop
  | setLoggingType p v => simp [Op.isRegistryCall] at hop

theorem run_registry_total (ops : List Op) (w : World) (hinv : Inv w)
    (hops : ∀ op ∈ ops, op.isRegistryCall = true) :
    ∃ w2, w.run ops = some w2 ∧ Inv w2 := by
  induction ops generalizing w with
  | nil => exact ⟨w, rfl, hinv⟩
  | cons op ops ih =>
    obtain ⟨w1, hs⟩ := step_registry_total w op hinv.1 (hops op (List.mem_cons_self _ _))
    obtain ⟨w2, hrun, hinv2⟩ := ih w1 (inv_step w w1 op hinv hs)
      (fun o ho => hops o (List.mem_cons_of_mem _ ho))
    exact ⟨w2, by simp only [World.run, hs, hrun], hinv2⟩

/-! ## `getLogger` and `deleteLogger` -/

/-- C2. `getLogger(n)` is get-or-create. When a logger named `n` is registered, the call
returns the first registered pointer to such a logger and changes nothing. Otherwise it
returns a pointer `p` to a new object with name `n`, layout
`[%l] %h:%m:%s - %p:%c (%f) - %i` and threshold `INFO`; `p` is appended at the end of the
registry and every other object is as before. -/
theorem getLogger_get_or_create (w : World) (n : List Char) (hl : w.Live) :
    (n ∈ w.names → ∃ pre p post, w.loggers = pre ++ p :: post
        ∧ (∀ q ∈ pre, w.nameOf q ≠ some n) ∧ w.nameOf p = some n
        ∧ getLogger w n = some (p, w))
    ∧ (n ∉ w.names → ∃ p w2, getLogger w n = some (p, w2)
        ∧ w2.deref p = some { name := n, layout := "[%l] %h:%m:%s - %p:%c (%f) - %i".toList,
                              currentType := LOGGING_TYPE.INFO }
        ∧ w.deref p = none ∧ p ∉ w.loggers
        ∧ w2.loggers = w.loggers ++ [p]
        ∧ (∀ q, q ≠ p → w2.deref q = w.deref q)) := by
  constructor
  · intro hin
    rcases getLogger_cases w n hl with ⟨pre, p, post, hsplit, hpre, hp, hget⟩ | ⟨hall, _⟩
    · exact ⟨pre, p, post, hsplit, fun q hq => (named_false_iff w n q).1 (hpre q hq),
        (named_iff_nameOf w n p).1 hp, hget⟩
    · obtain ⟨q, hq, hqn⟩ := (mem_names_iff w n).1 hin
      rw [hall q hq] at hqn
      exact absurd hqn (by simp)
  · intro hnot
    rcases getLogger_cases w n hl with ⟨pre, p, post, hsplit, hpre, hp, _⟩ | ⟨_, hget⟩
    · exact absurd ((mem_names_iff w n).2
        ⟨p, by rw [hsplit]; exact List.mem_append_right _ (List.mem_cons_self _ _), hp⟩) hnot
    · have hnone : w.deref w.heap.length = none := by simp [World.deref]
      refine ⟨w.heap.length, _, hget, ?_, hnone, ?_, rfl, ?_⟩
      · rw [deref_push_new]; rfl
      · intro hmem
        have := hl _ hmem
        rw [hnone] at this
        simp at this
      · intro q hq
        by_cases hlt : q < w.heap.length
        · exact deref_push w.heap w.loggers _ _ q hlt
        · have hgt : w.heap.length < q :=
            Nat.lt_of_le_of_ne (Nat.le_of_not_lt hlt) (Ne.symm hq)
          have h1 : (w.heap ++ [some (Logger.ctor n)])[q]? = none :=
            List.getElem?_eq_none (by simpa using hgt)
          have h2 : w.heap[q]? = none := List.getElem?_eq_none (Nat.le_of_lt hgt)
          simp only [World.deref, List.getD_eq_getElem?_getD, h1, h2]

/-- The state `exampleWorld` and the registered name `b`: the call returns the registered
pointer; and the name `c`, not registered: the call returns a new pointer. -/
theorem getLogger_get_or_create_witness :
    exampleWorld.Live
    ∧ "b".toList ∈ exampleWorld.names
    ∧ (∃ pre p post, exampleWorld.loggers = pre ++ p :: post
        ∧ (∀ q ∈ pre, exampleWorld.nameOf q ≠ some "b".toList)
        ∧ exampleWorld.nameOf p = some "b".toList
        ∧ getLogger exampleWorld "b".toList = some (p, exampleWorld))
    ∧ getLogger exampleWorld "b".toList = some (1, exampleWorld)
    ∧ "c".toList ∉ exampleWorld.names
    ∧ (∃ p w2, getLogger exampleWorld "c".toList = some (p, w2)
        ∧ w2.deref p = some { name := "c".toList,
                              layout := "[%l] %h:%m:%s - %p:%c (%f) - %i".toList,
                              currentType := LOGGING_TYPE.INFO }
        ∧ exampleWorld.deref p = none ∧ p ∉ exampleWorld.loggers
        ∧ w2.loggers = exampleWorld.loggers ++ [p]
        ∧ (∀ q, q ≠ p → w2.deref q = exampleWorld.deref q)) :=
  ⟨by decide, by decide,
   (getLogger_get_or_create exampleWorld "b".toList (by decide)).1 (by decide),
   by decide, by decide,
   (getLogger_get_or_create exampleWorld "c".toList (by decide)).2 (by decide)⟩

/-- C3. Two consecutive calls `getLogger(n)` return the same pointer, and the second call
leaves the state as the first one left it. -/
theorem getLogger_twice_same_instance (w : World) (n : List Char) (hl : w.Live) :
    ∃ p w1, getLogger w n = some (p, w1) ∧ getLogger w1 n = some (p, w1) := by
  rcases getLogger_cases w n hl with ⟨pre, p, post, hsplit, hpre, hp, hget⟩ | ⟨hall, hget⟩
  · exact ⟨p, w, hget, hget⟩
  · refine ⟨_, _, hget, ?_⟩
    have hsame : ∀ q ∈ w.loggers,
        World.deref { heap := w.heap ++ [some (Logger.ctor n)],
                      loggers := w.loggers ++ [w.heap.length] } q = w.deref q :=
      fun q hq => deref_push w.heap w.loggers _ _ q (deref_lt w q (hl q hq))
    have hloop := getLogger_loop_found
      { heap := w.heap ++ [some (Logger.ctor n)], loggers := w.loggers ++ [w.heap.length] }
      n w.loggers w.heap.length []
      (fun q hq => by rw [hsame q hq]; exact hl q hq)
      (fun q hq => by rw [named_congr w _ n q (hsame q hq)]; exact hall q hq)
      ((named_true_iff _ n _).2 ⟨Logger.ctor n, deref_push_new _ _ _, rfl⟩)
    simp only [getLogger, hloop]

/-- Two calls `getLogger("c")` on `exampleWorld`: both return the address 3. -/
theorem getLogger_twice_same_instance_witness :
    exampleWorld.Live
    ∧ (∃ p w1, getLogger exampleWorld "c".toList = some (p, w1)
        ∧ getLogger w1 "c".toList = some (p, w1))
    ∧ (getLogger exampleWorld "c".toList).map Prod.fst = some 3 :=
  ⟨by decide, getLogger_twice_same_instance exampleWorld "c".toList (by decide), by decide⟩

/-- C4. From the empty registry, every sequence of `getLogger` and `deleteLogger` calls
runs to a state, and in every state reached by a sequence of calls (setter calls through
live pointers included) the names of the registered loggers are pairwise distinct and
every registered pointer is live. -/
theorem registry_names_unique :
    (∀ ops, (∀ op ∈ ops, Op.isRegistryCall op = true) →
        ∃ w, World.empty.run ops = some w ∧ w.names.Nodup ∧ w.Live)
    ∧ (∀ ops w, World.empty.run ops = some w → w.names.Nodup ∧ w.Live) := by
  constructor
  · intro ops hops
    obtain ⟨w, hrun, hinv⟩ := run_registry_total ops World.empty inv_empty hops
    exact ⟨w, hrun, hinv.2, hinv.1⟩
  · intro ops w hrun
    have hinv := inv_run ops World.empty w inv_empty hrun
    exact ⟨hinv.2, hinv.1⟩

/-- The calls `getLogger("a")`, `getLogger("b")`, `getLogger("a")`, `deleteLogger("a")`,
`getLogger("a")`, `deleteLogger("c")` leave the loggers `b` and `a` registered. -/
theorem registry_names_unique_witness :
    (∀ op ∈ exampleCalls, Op.isRegistryCall op = true)
    ∧ World.empty.run exampleCalls = some exampleWorld
    ∧ exampleWorld.names = ["b".toList, "a".toList]
    ∧ (∃ w, World.empty.run exampleCalls = some w ∧ w.names.Nodup ∧ w.Live)
    ∧ exampleWorld.names.Nodup ∧ exampleWorld.Live :=
  ⟨by decide, by decide, by decide,
   registry_names_unique.1 exampleCalls (by decide),
   registry_names_unique.2 exampleCalls exampleWorld (by decide)⟩

/-- C5. When a logger named `n` is registered, `deleteLogger(n)` returns `true`; the first
registered pointer `p` to a logger named `n` is removed from the registry and its object
deleted, the other registered pointers keep their order and every other object is as
before. When the registered names are pairwise distinct, no logger named `n` remains and
every pointer that remains is live. -/
theorem deleteLogger_registered (w : World) (n : List Char) (hl : w.Live)
    (hin : n ∈ w.names) :
    ∃ pre p post w2, w.loggers = pre ++ p :: post
      ∧ (∀ q ∈ pre, w.nameOf q ≠ some n) ∧ w.nameOf p = some n
      ∧ deleteLogger w n = some (true, w2)
      ∧ w2.loggers = pre ++ post
      ∧ w2.deref p = none
      ∧ (∀ q, q ≠ p → w2.deref q = w.deref q)
      ∧ (w.names.Nodup → n ∉ w2.names ∧ w2.Live) := by
  rcases deleteLogger_cases w n hl with ⟨pre, p, post, hsplit, hpre, hp, hdel⟩ | ⟨hall, _⟩
  · have hpn : w.nameOf p = some n := (named_iff_nameOf w n p).1 hp
    have hplive : (w.deref p).isSome = true :=
      hl p (by rw [hsplit]; exact List.mem_append_right _ (List.mem_cons_self _ _))
    have hpnone : World.deref { heap := w.heap.set p none, loggers := pre ++ post } p = none :=
      deref_set_self w.heap _ none p (deref_lt w p hplive)
    have hother : ∀ q, q ≠ p →
        World.deref { heap := w.heap.set p none, loggers := pre ++ post } q = w.deref q :=
      fun q hq => deref_set_ne w.heap w.loggers _ none p q hq
    refine ⟨pre, p, post, _, hsplit, fun q hq => (named_false_iff w n q).1 (hpre q hq),
      hpn, hdel, rfl, hpnone, hother, ?_⟩
    intro hnd
    exact ⟨(delete_found_facts w n pre p post hl hsplit hpre hp hnd).1,
      (delete_found_facts w n pre p post hl hsplit hpre hp hnd).2.1⟩
  · obtain ⟨q, hq, hqn⟩ := (mem_names_iff w n).1 hin
    rw [hall q hq] at hqn
    exact absurd hqn (by simp)

/-- The call `deleteLogger("b")` on `exampleWorld`: `true`, and only `a` stays registered. -/
theorem deleteLogger_registered_witness :
    exampleWorld.Live ∧ "b".toList ∈ exampleWorld.names
    ∧ (∃ pre p post w2, exampleWorld.loggers = pre ++ p :: post
        ∧ (∀ q ∈ pre, exampleWorld.nameOf q ≠ some "b".toList)
        ∧ exampleWorld.nameOf p = some "b".toList
        ∧ deleteLogger exampleWorld "b".toList = some (true, w2)
        ∧ w2.loggers = pre ++ post
        ∧ w2.deref p = none
        ∧ (∀ q, q ≠ p → w2.deref q = exampleWorld.deref q)
        ∧ (exampleWorld.names.Nodup → "b".toList ∉ w2.names ∧ w2.Live))
    ∧ (deleteLogger exampleWorld "b".toList).map (fun r => (r.1, r.2.loggers))
        = some (true, [2]) :=
  ⟨by decide, by decide,
   deleteLogger_registered exampleWorld "b".toList (by decide) (by decide), by decide⟩

/-- C6. When no registered logger is named `n`, `deleteLogger(n)` returns `false` and the
state (heap and registry) is the one before the call. -/
theorem deleteLogger_unregistered (w : World) (n : List Char) (hl : w.Live)
    (hnot : n ∉ w.names) :
    deleteLogger w n = some (false, w) := by
  rcases deleteLogger_cases w n hl with ⟨pre, p, post, hsplit, _, hp, _⟩ | ⟨_, hdel⟩
  · exact absurd ((mem_names_iff w n).2
      ⟨p, by rw [hsplit]; exact List.mem_append_right _ (List.mem_cons_self _ _), hp⟩) hnot
  · exact hdel

/-- The call `deleteLogger("c")` on `exampleWorld`, where no logger is named `c`. -/
theorem deleteLogger_unregistered_witness :
    exampleWorld.Live ∧ "c".toList ∉ exampleWorld.names
    ∧ deleteLogger exampleWorld "c".toList = some (false, exampleWorld) :=
  ⟨by decide, by decide,
   deleteLogger_unregistered exampleWorld "c".toList (by decide) (by decide)⟩

/-- C7. In a state reached from the empty registry by any calls (`setLayout` and
`setLoggingType` included), for a registered name `n`: `deleteLogger(n)` returns `true`,
and the next `getLogger(n)` returns a pointer that is not registered and not live after
the deletion, to a new object with name `n`, the default layout and the threshold `INFO`. -/
theorem delete_then_get_creates_default (w : World) (n : List Char) (hr : Reachable w)
    (hin : n ∈ w.names) :
    ∃ w1 p w2, deleteLogger w n = some (true, w1)
      ∧ getLogger w1 n = some (p, w2)
      ∧ p ∉ w1.loggers ∧ w1.deref p = none
      ∧ w2.deref p = some { name := n, layout := "[%l] %h:%m:%s - %p:%c (%f) - %i".toList,
                            currentType := LOGGING_TYPE.INFO }
      ∧ w2.loggers = w1.loggers ++ [p] := by
  obtain ⟨hl, hnd⟩ := inv_of_reachable w hr
  rcases deleteLogger_cases w n hl with ⟨pre, p0, post, hsplit, hpre, hp, hdel⟩ | ⟨hall, _⟩
  · obtain ⟨hnot, hl1, _⟩ := delete_found_facts w n pre p0 post hl hsplit hpre hp hnd
    rcases getLogger_cases _ n hl1 with ⟨pre1, p1, post1, hsplit1, _, hp1, _⟩ | ⟨_, hget⟩
    · exact absurd ((mem_names_iff _ n).2
        ⟨p1, by rw [hsplit1]; exact List.mem_append_right _ (List.mem_cons_self _ _), hp1⟩) hnot
    · have hnone : World.deref { heap := w.heap.set p0 none, loggers := pre ++ post }
          (w.heap.set p0 none).length = none :=
        deref_heap_length { heap := w.heap.set p0 none, loggers := pre ++ post }
      refine ⟨_, _, _, hdel, hget, ?_, hnone, ?_, rfl⟩
      · intro hmem
        have := hl1 _ hmem
        rw [hnone] at this
        simp at this
      · rw [deref_push_new]; rfl
  · obtain ⟨q, hq, hqn⟩ := (mem_names_iff w n).1 hin
    rw [hall q hq] at hqn
    exact absurd hqn (by simp)

/-- The logger `net` is created, given the layout `%i` and the threshold `DEBUG`, deleted
and created again: the new object has the default layout and the threshold `INFO`. -/
theorem delete_then_get_creates_default_witness :
    Reachable configuredWorld ∧ "net".toList ∈ configuredWorld.names
    ∧ configuredWorld.deref 0
        = some { name := "net".toList, layout := "%i".toList,
                 currentType := LOGGING_TYPE.DEBUG }
    ∧ (∃ w1 p w2, deleteLogger configuredWorld "net".toList = some (true, w1)
        ∧ getLogger w1 "net".toList = some (p, w2)
        ∧ p ∉ w1.loggers ∧ w1.deref p = none
        ∧ w2.deref p = some { name := "net".toList,
                              layout := "[%l] %h:%m:%s - %p:%c (%f) - %i".toList,
                              currentType := LOGGING_TYPE.INFO }
        ∧ w2.loggers = w1.loggers ++ [p]) :=
  ⟨⟨configuringCalls, by decide⟩, by decide, by decide,
   delete_then_get_creates_default configuredWorld "net".toList
     ⟨configuringCalls, by decide⟩ (by decide)⟩

/-! ## Lemmas on rendering without the final newline -/

section RenderLemmas

variable (time : Tm) (type : LOGGING_TYPE) (message file : List Char) (line : Int)
  (function : List Char)

theorem written_after (a : List Char) (o : Outcome) :
    (Outcome.after a o).written = a ++ o.written := by
  cases o <;> rfl

theorem scan_empty : scan time type message file line function [] = Outcome.readPastEnd [] := by
  rw [scan.eq_def]

theorem scan_lone_percent :
    scan time type message file line function ['%'] = Outcome.readPastEnd [] := by
  rw [scan.eq_def]; simp

theorem expand_nil : expand time type message file line function [] = [] := by
  simp [expand, scan_nul, Outcome.written]

theorem expand_nul (rest : List Char) :
    expand time type message file line function (NUL :: rest) = [] := by
  simp [expand, scan_nul, Outcome.written]

theorem expand_percent (d : Char) (rest : List Char) :
    expand time type message file line function ('%' :: d :: rest)
      = emitCode time type message file line function d
          ++ expand time type message file line function rest := by
  simp only [expand, List.cons_append, scan_percent, written_after]

theorem expand_literal (c : Char) (rest : List Char) (h1 : c ≠ '%') (h2 : c ≠ NUL) :
    expand time type message file line function (c :: rest)
      = c :: expand time type message file line function rest := by
  simp only [expand, List.cons_append, scan_literal _ _ _ _ _ _ c _ h1 h2, written_after,
    List.singleton_append, List.nil_append]

/-- Scanning a buffer that begins with a NUL-free part `pre` that is read up exactly:
the rendering of `pre` is written, then the scan goes on with the rest. -/
theorem scan_append (pre rest : List Char) (hnul : NUL ∉ pre)
    (hpre : endsInLiteral pre = true) :
    scan time type message file line function (pre ++ rest)
      = Outcome.after (expand time type message file line function pre)
          (scan time type message file line function rest) := by
  induction pre using endsInLiteral.induct with
  | case1 => simp [expand_nil, after_nil]
  | case2 => simp [endsInLiteral_dangling] at hpre
  | case3 d rest2 ih =>
    rw [endsInLiteral_percent] at hpre
    have hnul2 : NUL ∉ rest2 := fun h => hnul (by simp [h])
    simp only [List.cons_append, scan_percent, expand_percent, ih hnul2 hpre, after_after]
  | case4 c rest1 hc ih =>
    rw [endsInLiteral_literal c rest1 hc] at hpre
    have hn : c ≠ NUL := fun h => hnul (by simp [h])
    have hnul2 : NUL ∉ rest1 := fun h => hnul (by simp [h])
    simp only [List.cons_append, scan_literal _ _ _ _ _ _ c _ hc hn,
      expand_literal _ _ _ _ _ _ c _ hc hn, ih hnul2 hpre, after_after, List.singleton_append,
      List.nil_append]

theorem scan_terminated (t : List Char) (hnul : NUL ∉ t) (ht : endsInLiteral t = true) :
    scan time type message file line function (t ++ [NUL])
      = Outcome.returned (expand time type message file line function t) := by
  rw [scan_append time type message file line function t [NUL] hnul ht, scan_nul]
  simp [Outcome.after]

/-- The newline that `Logger::log` writes after the loop commutes with text written
before. -/
theorem finish_after (a : List Char) (o : Outcome) :
    (match Outcome.after a o with
      | Outcome.returned out => Outcome.returned (out ++ ['\n'])
      | Outcome.readPastEnd out => Outcome.readPastEnd out)
    = Outcome.after a
        (match o with
          | Outcome.returned out => Outcome.returned (out ++ ['\n'])
          | Outcome.readPastEnd out => Outcome.readPastEnd out) := by
  cases o <;> simp [Outcome.after]

theorem log_setLayout_passed (self : Logger) (t : List Char)
    (hpass : type.val ≤ self.currentType.val) :
    (self.setLayout t).log time type message file line function
      = match scan time type message file line function (t ++ [NUL]) with
        | Outcome.returned out => Outcome.returned (out ++ ['\n'])
        | Outcome.readPastEnd out => Outcome.readPastEnd out :=
  log_passed (self.setLayout t) time type message file line function hpass

/-- A passing call on a NUL-free layout that is read up exactly writes the rendering of the
layout and a newline. -/
theorem log_eq_expand (self : Logger) (t : List Char) (hnul : NUL ∉ t)
    (ht : endsInLiteral t = true) (hpass : type.val ≤ self.currentType.val) :
    (self.setLayout t).log time type message file line function
      = Outcome.returned (expand time type message file line function t ++ ['\n']) := by
  rw [log_setLayout_passed time type message file line function self t hpass,
    scan_terminated time type message file line function t hnul ht]

end RenderLemmas

/-! ## The escape `%%`, the time codes, filtered calls -/

theorem readsThrough_percent (d : Char) (rest : List Char) :
    readsThrough ('%' :: d :: rest) = readsThrough rest := by
  rw [readsThrough.eq_def]; simp

theorem readsThrough_literal (c : Char) (rest : List Char) (h1 : c ≠ '%') (h2 : c ≠ NUL) :
    readsThrough (c :: rest) = readsThrough rest := by
  rw [readsThrough.eq_def]; simp [h1, h2]

theorem readsThrough_nul (rest : List Char) : readsThrough (NUL :: rest) = false := by
  have h : NUL ≠ '%' := by decide
  rw [readsThrough.eq_def]; simp [h]

theorem readsThrough_dangling : readsThrough ['%'] = false := by
  rw [readsThrough.eq_def]; simp

/-- Scanning a buffer that begins with a part `pre` the scan walks over completely: the
rendering of `pre` is written, then the scan goes on with the rest. -/
theorem scan_append_of_readsThrough (time : Tm) (type : LOGGING_TYPE)
    (message file : List Char) (line : Int) (function : List Char) (pre rest : List Char)
    (hpre : readsThrough pre = true) :
    scan time type message file line function (pre ++ rest)
      = Outcome.after (expand time type message file line function pre)
          (scan time type message file line function rest) := by
  induction pre using endsInLiteral.induct with
  | case1 => simp [expand_nil, after_nil]
  | case2 => simp [readsThrough_dangling] at hpre
  | case3 d rest2 ih =>
    rw [readsThrough_percent] at hpre
    simp only [List.cons_append, scan_percent, expand_percent, ih hpre, after_after]
  | case4 c rest1 hc ih =>
    by_cases hn : c = NUL
    · subst hn
      simp [readsThrough_nul] at hpre
    · rw [readsThrough_literal c rest1 hc hn] at hpre
      simp only [List.cons_append, scan_literal _ _ _ _ _ _ c _ hc hn,
        expand_literal _ _ _ _ _ _ c _ hc hn, ih hpre, after_after, List.singleton_append,
        List.nil_append]

/-- C11, as stated, fails: the layout NUL, `%`, `%`, `x` holds an occurrence of `%%`, and
a passing call writes the newline only, no `%`: the scan ends at the NUL before it. -/
theorem percent_percent_after_nul_counterexample :
    LOGGING_TYPE.INFO.val ≤ (Logger.ctor "net".toList).currentType.val
    ∧ ((Logger.ctor "net".toList).setLayout ([NUL] ++ '%' :: '%' :: ['x'])).log ⟨14, 3, 7⟩
          LOGGING_TYPE.INFO "hi".toList "conn.c".toList 42 "send".toList
        = Outcome.returned ['\n']
    ∧ '%' ∉ (((Logger.ctor "net".toList).setLayout ([NUL] ++ '%' :: '%' :: ['x'])).log
          ⟨14, 3, 7⟩ LOGGING_TYPE.INFO "hi".toList "conn.c".toList 42
          "send".toList).written := by
  decide

/-- C11, amended. An escape `%%` that the scan reaches, that is, one that follows a part
`pre` the scan walks over completely (no NUL in the literal position, no `%` left without
its character), writes exactly one `%`, and the scan goes on after the second `%` in the
literal position: the call writes the rendering of `pre`, one `%`, and then what a call
with the layout `post` writes. The layout `%%` renders `%` and `100%%i` renders `100%i`,
each followed by a newline, whatever the record. -/
theorem percent_percent_renders_percent (self : Logger) (time : Tm) (type : LOGGING_TYPE)
    (message file : List Char) (line : Int) (function : List Char) (pre post : List Char)
    (hpre : readsThrough pre = true)
    (hpass : type.val ≤ self.currentType.val) :
    (self.setLayout (pre ++ '%' :: '%' :: post)).log time type message file line function
        = Outcome.after (expand time type message file line function pre ++ ['%'])
            ((self.setLayout post).log time type message file line function)
    ∧ (self.setLayout "%%".toList).log time type message file line function
        = Outcome.returned "%\n".toList
    ∧ (self.setLayout "100%%i".toList).log time type message file line function
        = Outcome.returned "100%i\n".toList := by
  have hpc : emitCode time type message file line function '%' = ['%'] := by
    simp [emitCode]
  have h0 : scan time type message file line function [Char.ofNat 0] = Outcome.returned [] :=
    scan_nul time type message file line function []
  refine ⟨?_, ?_, ?_⟩
  · rw [log_setLayout_passed time type message file line function self _ hpass,
      log_setLayout_passed time type message file line function self _ hpass,
      List.append_assoc,
      scan_append_of_readsThrough time type message file line function pre _ hpre,
      List.cons_append, List.cons_append, scan_percent, hpc, after_after, finish_after]
  · rw [log_setLayout_passed time type message file line function self _ hpass]
    have h : "%%".toList = ['%', '%'] := by decide
    rw [h]
    simp [scan_percent, hpc, h0, NUL, Outcome.after]
  · rw [log_setLayout_passed time type message file line function self _ hpass]
    have h : "100%%i".toList = ['1', '0', '0', '%', '%', 'i'] := by decide
    rw [h]
    simp [scan_percent, scan_literal, hpc, h0, NUL, Outcome.after]

/-- The layout `%`, NUL, `a%%b%%%i`: the NUL after the first `%` is a code character, the
two escapes `%%` are reached and two `%` are written. -/
theorem percent_percent_renders_percent_witness :
    readsThrough (['%', NUL] ++ "a%%b".toList) = true
    ∧ LOGGING_TYPE.INFO.val ≤ (Logger.ctor "net".toList).currentType.val
    ∧ ((Logger.ctor "net".toList).setLayout
          ((['%', NUL] ++ "a%%b".toList) ++ '%' :: '%' :: "%i".toList)).log
          ⟨14, 3, 7⟩ LOGGING_TYPE.INFO "hi".toList "conn.c".toList 42 "send".toList
        = Outcome.returned "a%b%hi\n".toList
    ∧ ((Logger.ctor "net".toList).setLayout "%%".toList).log
          ⟨14, 3, 7⟩ LOGGING_TYPE.INFO "hi".toList "conn.c".toList 42 "send".toList
        = Outcome.returned "%\n".toList
    ∧ ((Logger.ctor "net".toList).setLayout "100%%i".toList).log
          ⟨14, 3, 7⟩ LOGGING_TYPE.INFO "hi".toList "conn.c".toList 42 "send".toList
        = Outcome.returned "100%i\n".toList :=
  ⟨by decide, by decide,
   (percent_percent_renders_percent (Logger.ctor "net".toList) ⟨14, 3, 7⟩ LOGGING_TYPE.INFO
      "hi".toList "conn.c".toList 42 "send".toList (['%', NUL] ++ "a%%b".toList) "%i".toList
      (by decide) (by decide)).1.trans (by decide),
   (percent_percent_renders_percent (Logger.ctor "net".toList) ⟨14, 3, 7⟩ LOGGING_TYPE.INFO
      "hi".toList "conn.c".toList 42 "send".toList (['%', NUL] ++ "a%%b".toList) "%i".toList
      (by decide) (by decide)).2⟩

theorem showInt_unpadded (v : Int) (h0 : 0 ≤ v) (h1 : v ≤ 59) :
    showInt v = unpadded v.toNat := by
  obtain ⟨n, rfl⟩ := Int.eq_ofNat_of_zero_le h0
  have hn : n ≤ 59 := by omega
  interval_cases n <;> rfl

/-- C12. For a time with `0 <= tm_hour <= 23` and `0 <= tm_min, tm_sec <= 59` the layouts
`%h`, `%m` and `%s` render the hour, the minute and the second in decimal without padding
(one digit below 10, two digits otherwise), followed by the newline. -/
theorem time_codes_unpadded (self : Logger) (time : Tm) (type : LOGGING_TYPE)
    (message file : List Char) (line : Int) (function : List Char)
    (hh : 0 ≤ time.tm_hour ∧ time.tm_hour ≤ 23)
    (hm : 0 ≤ time.tm_min ∧ time.tm_min ≤ 59)
    (hs : 0 ≤ time.tm_sec ∧ time.tm_sec ≤ 59)
    (hpass : type.val ≤ self.currentType.val) :
    (self.setLayout "%h".toList).log time type message file line function
        = Outcome.returned (unpadded time.tm_hour.toNat ++ ['\n'])
    ∧ (self.setLayout "%m".toList).log time type message file line function
        = Outcome.returned (unpadded time.tm_min.toNat ++ ['\n'])
    ∧ (self.setLayout "%s".toList).log time type message file line function
        = Outcome.returned (unpadded time.tm_sec.toNat ++ ['\n'])
    ∧ (∀ v, v < 10 → unpadded v = [decimalDigit v]) := by
  have h0 : scan time type message file line function [Char.ofNat 0] = Outcome.returned [] :=
    scan_nul time type message file line function []
  have e1 : "%h".toList = ['%', 'h'] := by decide
  have e2 : "%m".toList = ['%', 'm'] := by decide
  have e3 : "%s".toList = ['%', 's'] := by decide
  refine ⟨?_, ?_, ?_, ?_⟩
  · rw [log_setLayout_passed time type message file line function self _ hpass, e1,
      ← showInt_unpadded _ hh.1 (by omega)]
    simp [scan_percent, emitCode, h0, NUL, Outcome.after]
  · rw [log_setLayout_passed time type message file line function self _ hpass, e2,
      ← showInt_unpadded _ hm.1 hm.2]
    simp [scan_percent, emitCode, h0, NUL, Outcome.after]
  · rw [log_setLayout_passed time type message file line function self _ hpass, e3,
      ← showInt_unpadded _ hs.1 hs.2]
    simp [scan_percent, emitCode, h0, NUL, Outcome.after]
  · intro v hv
    simp [unpadded, hv]

/-- At 14:05:07 the layout `%m` renders `5` and a newline, not `05`; `%h` renders `14`. -/
theorem time_codes_unpadded_witness :
    ((0 : Int) ≤ 14 ∧ (14 : Int) ≤ 23) ∧ ((0 : Int) ≤ 5 ∧ (5 : Int) ≤ 59)
    ∧ ((0 : Int) ≤ 7 ∧ (7 : Int) ≤ 59)
    ∧ LOGGING_TYPE.INFO.val ≤ (Logger.ctor "net".toList).currentType.val
    ∧ ((Logger.ctor "net".toList).setLayout "%m".toList).log
          ⟨14, 5, 7⟩ LOGGING_TYPE.INFO "hi".toList "conn.c".toList 42 "send".toList
        = Outcome.returned "5\n".toList
    ∧ ((Logger.ctor "net".toList).setLayout "%m".toList).log
          ⟨14, 5, 7⟩ LOGGING_TYPE.INFO "hi".toList "conn.c".toList 42 "send".toList
        ≠ Outcome.returned "05\n".toList
    ∧ ((Logger.ctor "net".toList).setLayout "%h".toList).log
          ⟨14, 5, 7⟩ LOGGING_TYPE.INFO "hi".toList "conn.c".toList 42 "send".toList
        = Outcome.returned "14\n".toList :=
  ⟨by decide, by decide, by decide, by decide,
   (time_codes_unpadded (Logger.ctor "net".toList) ⟨14, 5, 7⟩ LOGGING_TYPE.INFO
      "hi".toList "conn.c".toList 42 "send".toList (by decide) (by decide) (by decide)
      (by decide)).2.1.trans (by decide),
   by decide,
   (time_codes_unpadded (Logger.ctor "net".toList) ⟨14, 5, 7⟩ LOGGING_TYPE.INFO
      "hi".toList "conn.c".toList 42 "send".toList (by decide) (by decide) (by decide)
      (by decide)).1.trans (by decide)⟩

/-- C13. A call of `log` at a level above the threshold writes nothing, not even a
newline, and changes neither the logger nor any other object nor the registry; the same
holds for the wrappers `error`, `warning`, `info` and `debug`, which are `log` at their
level. -/
theorem filtered_call_is_silent (w : World) (p : Ptr) (l : Logger) (time : Tm)
    (type : LOGGING_TYPE) (message file : List Char) (line : Int) (function : List Char)
    (hd : w.deref p = some l) (hlt : l.currentType.val < type.val) :
    l.log time type message file line function = Outcome.returned []
    ∧ w.log p time type message file line function = some (Outcome.returned [], w)
    ∧ (type = LOGGING_TYPE.ERROR →
        l.error time message file line function = Outcome.returned [])
    ∧ (type = LOGGING_TYPE.WARNING →
        l.warning time message file line function = Outcome.returned [])
    ∧ (type = LOGGING_TYPE.INFO →
        l.info time message file line function = Outcome.returned [])
    ∧ (type = LOGGING_TYPE.DEBUG →
        l.debug time message file line function = Outcome.returned []) := by
  have hlog := log_filtered l time type message file line function hlt
  refine ⟨hlog, ?_, ?_, ?_, ?_, ?_⟩
  · simp only [World.log, hd, hlog]
  · intro ht; subst ht; exact hlog
  · intro ht; subst ht; exact hlog
  · intro ht; subst ht; exact hlog
  · intro ht; subst ht; exact hlog

/-- The logger `net` set to the threshold `ERROR`: `info("ignored", ...)` writes nothing
and the state is as before. -/
theorem filtered_call_is_silent_witness :
    errorOnlyWorld.deref 0 = some ((Logger.ctor "net".toList).setLoggingType LOGGING_TYPE.ERROR)
    ∧ ((Logger.ctor "net".toList).setLoggingType LOGGING_TYPE.ERROR).currentType.val
        < LOGGING_TYPE.INFO.val
    ∧ ((Logger.ctor "net".toList).setLoggingType LOGGING_TYPE.ERROR).info ⟨14, 3, 7⟩
          "ignored".toList "conn.c".toList 42 "send".toList
        = Outcome.returned []
    ∧ errorOnlyWorld.log 0 ⟨14, 3, 7⟩ LOGGING_TYPE.INFO
          "ignored".toList "conn.c".toList 42 "send".toList
        = some (Outcome.returned [], errorOnlyWorld) :=
  ⟨by decide, by decide,
   (filtered_call_is_silent errorOnlyWorld 0
      ((Logger.ctor "net".toList).setLoggingType LOGGING_TYPE.ERROR) ⟨14, 3, 7⟩
      LOGGING_TYPE.INFO "ignored".toList "conn.c".toList 42 "send".toList
      (by decide) (by decide)).2.2.2.2.1 rfl,
   (filtered_call_is_silent errorOnlyWorld 0
      ((Logger.ctor "net".toList).setLoggingType LOGGING_TYPE.ERROR) ⟨14, 3, 7⟩
      LOGGING_TYPE.INFO "ignored".toList "conn.c".toList 42 "send".toList
      (by decide) (by decide)).2.1⟩

/-! ## The final newline -/

theorem digitChar_ne_newline (d : Nat) (hd : d < 10) : Nat.digitChar d ≠ '\n' := by
  interval_cases d <;> decide

theorem toDigitsCore_no_newline (fuel : Nat) :
    ∀ (n : Nat) (ds : List Char), '\n' ∉ ds → '\n' ∉ Nat.toDigitsCore 10 fuel n ds := by
  induction fuel with
  | zero => intro n ds h; simpa [Nat.toDigitsCore] using h
  | succ fuel ih =>
    intro n ds h
    have hcons : '\n' ∉ Nat.digitChar (n % 10) :: ds := by
      intro hmem
      rcases List.mem_cons.1 hmem with h1 | h1
      · exact digitChar_ne_newline _ (Nat.mod_lt n (by decide)) h1.symm
      · exact h h1
    simp only [Nat.toDigitsCore]
    split
    · exact hcons
    · exact ih _ _ hcons

theorem showInt_no_newline (v : Int) : '\n' ∉ showInt v := by
  cases v with
  | ofNat n =>
    exact toDigitsCore_no_newline _ _ _ (by simp)
  | negSucc n =>
    intro hmem
    rcases List.mem_cons.1 hmem with h1 | h1
    · exact absurd h1 (by decide)
    · exact toDigitsCore_no_newline _ _ _ (by simp) h1

theorem levelName_no_newline (type : LOGGING_TYPE) : '\n' ∉ levelName type := by
  cases type <;> decide

theorem emitCode_no_newline (time : Tm) (type : LOGGING_TYPE) (message file : List Char)
    (line : Int) (function : List Char) (d : Char)
    (hm : '\n' ∉ message) (hf : '\n' ∉ file) (hfn : '\n' ∉ function) :
    '\n' ∉ emitCode time type message file line function d := by
  unfold emitCode
  split_ifs
  · exact showInt_no_newline _
  · exact showInt_no_newline _
  · exact showInt_no_newline _
  · exact hm
  · exact hf
  · exact showInt_no_newline _
  · exact hfn
  · exact levelName_no_newline _
  · decide
  · simp

/-- The loop writes no newline when the buffer and the substituted strings hold none. -/
theorem scan_no_newline (time : Tm) (type : LOGGING_TYPE) (message file : List Char)
    (line : Int) (function : List Char) (buf : List Char)
    (hm : '\n' ∉ message) (hf : '\n' ∉ file) (hfn : '\n' ∉ function) (hb : '\n' ∉ buf) :
    '\n' ∉ (scan time type message file line function buf).written := by
  induction buf using endsInLiteral.induct with
  | case1 => simp [scan_empty, Outcome.written]
  | case2 => simp [scan_lone_percent, Outcome.written]
  | case3 d rest2 ih =>
    have hb2 : '\n' ∉ rest2 := fun h => hb (by simp [h])
    rw [scan_percent, written_after]
    intro hmem
    rcases List.mem_append.1 hmem with h1 | h1
    · exact emitCode_no_newline time type message file line function d hm hf hfn h1
    · exact ih hb2 h1
  | case4 c rest hc ih =>
    have hb2 : '\n' ∉ rest := fun h => hb (by simp [h])
    have hcn : c ≠ '\n' := fun h => hb (by simp [h])
    by_cases hn : c = NUL
    · subst hn
      simp [scan_nul, Outcome.written]
    · rw [scan_literal _ _ _ _ _ _ c _ hc hn, written_after]
      intro hmem
      rcases List.mem_append.1 hmem with h1 | h1
      · exact hcn (List.mem_singleton.1 h1).symm
      · exact ih hb2 h1

theorem logOver_passed (self : Logger) (beyond : List Char) (time : Tm)
    (type : LOGGING_TYPE) (message file : List Char) (line : Int) (function : List Char)
    (h : type.val ≤ self.currentType.val) :
    self.logOver beyond time type message file line function
      = match scan time type message file line function (self.layout ++ [NUL] ++ beyond) with
        | Outcome.returned out => Outcome.returned (out ++ ['\n'])
        | Outcome.readPastEnd out => Outcome.readPastEnd out := by
  have h2 : ¬ type.val > self.currentType.val := by omega
  simp only [Logger.logOver, h2, if_false]

/-- On a layout that is read up exactly nothing after the terminator is read: whatever
follows the buffer, the call is the call of `Logger.log`. -/
theorem logOver_eq_log (self : Logger) (beyond : List Char) (time : Tm)
    (type : LOGGING_TYPE) (message file : List Char) (line : Int) (function : List Char)
    (ht : endsInLiteral self.layout = true) :
    self.logOver beyond time type message file line function
      = self.log time type message file line function := by
  have hscan : scan time type message file line function (self.layout ++ [NUL] ++ beyond)
      = scan time type message file line function (self.layout ++ [NUL]) := by
    rw [List.append_assoc]
    apply scan_append_congr time type message file line function self.layout _ _ ht
    rw [List.singleton_append, scan_nul, scan_nul]
  simp only [Logger.logOver, Logger.log, hscan]

/-- C14. A passing call on a layout that is read up exactly writes a text that ends with
a newline, whatever follows the buffer in memory, and when the layout, the message, the
file and the function hold no newline it is the only one; the empty layout renders a lone
newline. On every layout, a call that leaves the loop has written the newline last. On the
layout `%i%`, which ends in a `%` with nothing after it, the scan goes on beyond the
buffer after the message: with nothing readable there the read is outside the buffer and
no newline has been written; with a newline and a NUL there the call writes the message
and two newlines, though neither the layout nor the record holds a newline. -/
theorem log_final_newline (self : Logger) (time : Tm) (type : LOGGING_TYPE)
    (message file : List Char) (line : Int) (function : List Char)
    (hpass : type.val ≤ self.currentType.val) :
    (endsInLiteral self.layout = true →
        ∃ out, self.log time type message file line function = Outcome.returned (out ++ ['\n'])
          ∧ (∀ beyond, self.logOver beyond time type message file line function
                = Outcome.returned (out ++ ['\n']))
          ∧ ('\n' ∉ self.layout → '\n' ∉ message → '\n' ∉ file → '\n' ∉ function →
              '\n' ∉ out))
    ∧ (self.setLayout []).log time type message file line function = Outcome.returned ['\n']
    ∧ (∀ beyond o, self.logOver beyond time type message file line function
          = Outcome.returned o → ∃ out, o = out ++ ['\n'])
    ∧ (self.setLayout "%i%".toList).log time type message file line function
        = Outcome.readPastEnd message
    ∧ (self.setLayout "%i%".toList).logOver ['\n', NUL] time type message file line function
        = Outcome.returned (message ++ ['\n', '\n']) := by
  have h0 : emitCode time type message file line function NUL = [] :=
    emitCode_unknown time type message file line function NUL (by decide)
  have hlay : "%i%".toList = ['%', 'i', '%'] := by decide
  have hnl : ('\n' : Char) ≠ '%' := by decide
  have hnn : ('\n' : Char) ≠ NUL := by decide
  refine ⟨?_, ?_, ?_, ?_, ?_⟩
  · intro ht
    obtain ⟨out, hout⟩ := scan_returns time type message file line function self.layout ht
    have hlog : self.log time type message file line function
        = Outcome.returned (out ++ ['\n']) := by
      rw [log_passed self time type message file line function hpass, hout]
    refine ⟨out, hlog, ?_, ?_⟩
    · intro beyond
      rw [logOver_eq_log self beyond time type message file line function ht, hlog]
    · intro hl hm hf hfn
      have hb : '\n' ∉ self.layout ++ [NUL] := by
        intro hmem
        rcases List.mem_append.1 hmem with h1 | h1
        · exact hl h1
        · exact absurd (List.mem_singleton.1 h1) (by decide)
      have := scan_no_newline time type message file line function _ hm hf hfn hb
      rw [hout] at this
      exact this
  · rw [log_setLayout_passed time type message file line function self _ hpass]
    simp [scan_nul]
  · intro beyond o ho
    rw [logOver_passed self beyond time type message file line function hpass] at ho
    cases hs : scan time type message file line function (self.layout ++ [NUL] ++ beyond) with
    | returned out =>
      rw [hs] at ho
      exact ⟨out, by simpa using ho.symm⟩
    | readPastEnd out =>
      rw [hs] at ho
      simp at ho
  · rw [log_setLayout_passed time type message file line function self _ hpass, hlay]
    simp only [List.cons_append, List.nil_append, scan_percent, h0, scan_empty]
    simp [emitCode, Outcome.after]
  · rw [logOver_passed _ _ time type message file line function
        (by simpa [Logger.setLayout] using hpass)]
    simp only [Logger.setLayout, hlay, List.cons_append, List.nil_append, scan_percent, h0,
      scan_literal _ _ _ _ _ _ '\n' _ hnl hnn, scan_nul]
    simp [emitCode, Outcome.after]

/-- The default layout ends its line with the only newline. The layout `%i%` with the
message `boom`: with nothing readable after the buffer, `boom` and a read outside the
buffer; with a newline and a NUL after the buffer, `boom` and two newlines; with the rest
of the default layout after the buffer, `boom 14:3:7 - conn.c:42 (send) - boom`. -/
theorem log_final_newline_witness :
    LOGGING_TYPE.ERROR.val ≤ (Logger.ctor "net".toList).currentType.val
    ∧ endsInLiteral (Logger.ctor "net".toList).layout = true
    ∧ (∃ out, (Logger.ctor "net".toList).log ⟨14, 3, 7⟩ LOGGING_TYPE.ERROR
            "boom".toList "conn.c".toList 42 "send".toList = Outcome.returned (out ++ ['\n'])
          ∧ (∀ beyond, (Logger.ctor "net".toList).logOver beyond ⟨14, 3, 7⟩
                LOGGING_TYPE.ERROR "boom".toList "conn.c".toList 42 "send".toList
              = Outcome.returned (out ++ ['\n']))
          ∧ ('\n' ∉ (Logger.ctor "net".toList).layout → '\n' ∉ "boom".toList →
              '\n' ∉ "conn.c".toList → '\n' ∉ "send".toList → '\n' ∉ out))
    ∧ (((Logger.ctor "net".toList).setLayout []).log ⟨14, 3, 7⟩ LOGGING_TYPE.ERROR
          "boom".toList "conn.c".toList 42 "send".toList = Outcome.returned ['\n']
      ∧ (∀ beyond o, (Logger.ctor "net".toList).logOver beyond ⟨14, 3, 7⟩
            LOGGING_TYPE.ERROR "boom".toList "conn.c".toList 42 "send".toList
          = Outcome.returned o → ∃ out, o = out ++ ['\n'])
      ∧ ((Logger.ctor "net".toList).setLayout "%i%".toList).log ⟨14, 3, 7⟩
            LOGGING_TYPE.ERROR "boom".toList "conn.c".toList 42 "send".toList
          = Outcome.readPastEnd "boom".toList
      ∧ ((Logger.ctor "net".toList).setLayout "%i%".toList).logOver ['\n', NUL] ⟨14, 3, 7⟩
            LOGGING_TYPE.ERROR "boom".toList "conn.c".toList 42 "send".toList
          = Outcome.returned ("boom".toList ++ ['\n', '\n']))
    ∧ '\n' ∉ "%i%".toList ∧ '\n' ∉ "boom".toList ∧ '\n' ∉ "conn.c".toList
    ∧ '\n' ∉ "send".toList
    ∧ ((Logger.ctor "net".toList).setLayout "%i%".toList).logOver
          (" %h:%m:%s - %p:%c (%f) - %i".toList ++ [NUL]) ⟨14, 3, 7⟩
          LOGGING_TYPE.ERROR "boom".toList "conn.c".toList 42 "send".toList
        = Outcome.returned "boom 14:3:7 - conn.c:42 (send) - boom\n".toList :=
  ⟨by decide, by decide,
   (log_final_newline (Logger.ctor "net".toList) ⟨14, 3, 7⟩ LOGGING_TYPE.ERROR
      "boom".toList "conn.c".toList 42 "send".toList (by decide)).1 (by decide),
   (log_final_newline (Logger.ctor "net".toList) ⟨14, 3, 7⟩ LOGGING_TYPE.ERROR
      "boom".toList "conn.c".toList 42 "send".toList (by decide)).2,
   by decide, by decide, by decide, by decide, by decide⟩

/-! ## Substituted text and literal text -/

/-- C15. The layouts `%i`, `%p` and `%f` render the message, the file and the function
as they are, followed by the newline; the substituted text is not scanned. -/
theorem text_codes_raw (self : Logger) (time : Tm) (type : LOGGING_TYPE)
    (message file : List Char) (line : Int) (function : List Char)
    (hpass : type.val ≤ self.currentType.val) :
    (self.setLayout "%i".toList).log time type message file line function
        = Outcome.returned (message ++ ['\n'])
    ∧ (self.setLayout "%p".toList).log time type message file line function
        = Outcome.returned (file ++ ['\n'])
    ∧ (self.setLayout "%f".toList).log time type message file line function
        = Outcome.returned (function ++ ['\n']) := by
  have h0 : scan time type message file line function [Char.ofNat 0] = Outcome.returned [] :=
    scan_nul time type message file line function []
  have e1 : "%i".toList = ['%', 'i'] := by decide
  have e2 : "%p".toList = ['%', 'p'] := by decide
  have e3 : "%f".toList = ['%', 'f'] := by decide
  refine ⟨?_, ?_, ?_⟩
  · rw [log_setLayout_passed time type message file line function self _ hpass, e1]
    simp [scan_percent, emitCode, h0, NUL, Outcome.after]
  · rw [log_setLayout_passed time type message file line function self _ hpass, e2]
    simp [scan_percent, emitCode, h0, NUL, Outcome.after]
  · rw [log_setLayout_passed time type message file line function self _ hpass, e3]
    simp [scan_percent, emitCode, h0, NUL, Outcome.after]

/-- The message `100% %l`, the file `a%i.c` and the function `f%%` come out unchanged. -/
theorem text_codes_raw_witness :
    LOGGING_TYPE.INFO.val ≤ (Logger.ctor "net".toList).currentType.val
    ∧ ((Logger.ctor "net".toList).setLayout "%i".toList).log ⟨14, 3, 7⟩ LOGGING_TYPE.INFO
          "100% %l".toList "a%i.c".toList 42 "f%%".toList
        = Outcome.returned "100% %l\n".toList
    ∧ ((Logger.ctor "net".toList).setLayout "%p".toList).log ⟨14, 3, 7⟩ LOGGING_TYPE.INFO
          "100% %l".toList "a%i.c".toList 42 "f%%".toList
        = Outcome.returned "a%i.c\n".toList
    ∧ ((Logger.ctor "net".toList).setLayout "%f".toList).log ⟨14, 3, 7⟩ LOGGING_TYPE.INFO
          "100% %l".toList "a%i.c".toList 42 "f%%".toList
        = Outcome.returned "f%%\n".toList :=
  ⟨by decide,
   (text_codes_raw (Logger.ctor "net".toList) ⟨14, 3, 7⟩ LOGGING_TYPE.INFO
      "100% %l".toList "a%i.c".toList 42 "f%%".toList (by decide)).1.trans (by decide),
   (text_codes_raw (Logger.ctor "net".toList) ⟨14, 3, 7⟩ LOGGING_TYPE.INFO
      "100% %l".toList "a%i.c".toList 42 "f%%".toList (by decide)).2.1.trans (by decide),
   (text_codes_raw (Logger.ctor "net".toList) ⟨14, 3, 7⟩ LOGGING_TYPE.INFO
      "100% %l".toList "a%i.c".toList 42 "f%%".toList (by decide)).2.2.trans (by decide)⟩

theorem endsInLiteral_of_no_percent (t : List Char) (h : '%' ∉ t) :
    endsInLiteral t = true := by
  induction t with
  | nil => rfl
  | cons c rest ih =>
    have hc : c ≠ '%' := fun hc => h (by simp [hc])
    rw [endsInLiteral_literal c rest hc]
    exact ih (fun hmem => h (List.mem_cons_of_mem _ hmem))

theorem expand_of_no_percent (time : Tm) (type : LOGGING_TYPE) (message file : List Char)
    (line : Int) (function : List Char) (t : List Char) (h : '%' ∉ t) (hnul : NUL ∉ t) :
    expand time type message file line function t = t := by
  induction t with
  | nil => exact expand_nil time type message file line function
  | cons c rest ih =>
    have hc : c ≠ '%' := fun hc => h (by simp [hc])
    have hn : c ≠ NUL := fun hc => hnul (by simp [hc])
    rw [expand_literal time type message file line function c rest hc hn,
      ih (fun hmem => h (List.mem_cons_of_mem _ hmem))
        (fun hmem => hnul (List.mem_cons_of_mem _ hmem))]

/-- C16, as stated, fails: the layout `a`, NUL, `b` holds no `%`, and a passing call
writes `a` and the newline only. -/
theorem literal_template_nul_counterexample :
    '%' ∉ ['a', NUL, 'b']
    ∧ LOGGING_TYPE.INFO.val ≤ (Logger.ctor "net".toList).currentType.val
    ∧ ((Logger.ctor "net".toList).setLayout ['a', NUL, 'b']).log ⟨14, 3, 7⟩
          LOGGING_TYPE.INFO "hi".toList "conn.c".toList 42 "send".toList
        = Outcome.returned ['a', '\n']
    ∧ ((Logger.ctor "net".toList).setLayout ['a', NUL, 'b']).log ⟨14, 3, 7⟩
          LOGGING_TYPE.INFO "hi".toList "conn.c".toList 42 "send".toList
        ≠ Outcome.returned (['a', NUL, 'b'] ++ ['\n']) := by
  decide

/-- C16, amended. On a layout without `%` and without NUL a passing call writes the
layout, character for character, and the newline. -/
theorem literal_template_verbatim (self : Logger) (time : Tm) (type : LOGGING_TYPE)
    (message file : List Char) (line : Int) (function : List Char) (t : List Char)
    (hpc : '%' ∉ t) (hnul : NUL ∉ t) (hpass : type.val ≤ self.currentType.val) :
    (self.setLayout t).log time type message file line function
      = Outcome.returned (t ++ ['\n']) := by
  rw [log_eq_expand time type message file line function self t hnul
      (endsInLiteral_of_no_percent t hpc) hpass,
    expand_of_no_percent time type message file line function t hpc hnul]

/-- The layout `plain text.` is written as it is. -/
theorem literal_template_verbatim_witness :
    '%' ∉ "plain text.".toList ∧ NUL ∉ "plain text.".toList
    ∧ LOGGING_TYPE.INFO.val ≤ (Logger.ctor "net".toList).currentType.val
    ∧ ((Logger.ctor "net".toList).setLayout "plain text.".toList).log ⟨14, 3, 7⟩
          LOGGING_TYPE.INFO "hi".toList "conn.c".toList 42 "send".toList
        = Outcome.returned ("plain text.".toList ++ ['\n']) :=
  ⟨by decide, by decide, by decide,
   literal_template_verbatim (Logger.ctor "net".toList) ⟨14, 3, 7⟩ LOGGING_TYPE.INFO
      "hi".toList "conn.c".toList 42 "send".toList "plain text.".toList
      (by decide) (by decide) (by decide)⟩

/-! ## The setters -/

theorem applySetter_getName (l : Logger) (c : Setter) :
    (l.applySetter c).getName = l.getName := by
  cases c <;> rfl

theorem applySetters_getName (cs : List Setter) :
    ∀ l : Logger, (l.applySetters cs).getName = l.getName := by
  induction cs with
  | nil => intro l; rfl
  | cons c cs ih =>
    intro l
    rw [Logger.applySetters, ih, applySetter_getName]

theorem world_set_frame (w : World) (p : Ptr) (l l2 : Logger) (hd : w.deref p = some l) :
    World.deref { w with heap := w.heap.set p (some l2) } p = some l2
    ∧ ∀ q, q ≠ p → World.deref { w with heap := w.heap.set p (some l2) } q = w.deref q :=
  ⟨deref_set_self w.heap _ _ p (deref_lt w p (by simp [hd])),
   fun q hq => deref_set_ne w.heap w.loggers _ _ p q hq⟩

/-- C17. `setLayout(t)` makes the layout `t`, whatever `t` is, and keeps the name and the
threshold, and a `log` call after it behaves as on any logger with the layout `t` and the
same threshold; `setLoggingType(v)` makes the threshold `v` and keeps the name and the
layout; after any sequence of setter calls `getName` returns the name the logger was
constructed with. Through a pointer, a setter changes the object pointed to and nothing
else. -/
theorem setters_replace_one_field (l : Logger) (t : List Char) (v : LOGGING_TYPE)
    (cs : List Setter) (n : List Char) :
    ((l.setLayout t).layout = t ∧ (l.setLayout t).name = l.name
        ∧ (l.setLayout t).currentType = l.currentType)
    ∧ (∀ (l2 : Logger) (time : Tm) (type : LOGGING_TYPE) (message file : List Char)
          (line : Int) (function : List Char),
        l2.layout = t → l2.currentType = l.currentType →
        (l.setLayout t).log time type message file line function
          = l2.log time type message file line function)
    ∧ ((l.setLoggingType v).currentType = v ∧ (l.setLoggingType v).name = l.name
        ∧ (l.setLoggingType v).layout = l.layout)
    ∧ (l.applySetters cs).getName = l.getName
    ∧ ((Logger.ctor n).applySetters cs).getName = n
    ∧ (∀ (w : World) (p : Ptr), w.deref p = some l →
        ∃ w2, w.setLayout p t = some w2 ∧ w2.deref p = some (l.setLayout t)
          ∧ w2.loggers = w.loggers ∧ ∀ q, q ≠ p → w2.deref q = w.deref q)
    ∧ (∀ (w : World) (p : Ptr), w.deref p = some l →
        ∃ w2, w.setLoggingType p v = some w2 ∧ w2.deref p = some (l.setLoggingType v)
          ∧ w2.loggers = w.loggers ∧ ∀ q, q ≠ p → w2.deref q = w.deref q) := by
  refine ⟨⟨rfl, rfl, rfl⟩, ?_, ⟨rfl, rfl, rfl⟩, applySetters_getName cs l,
    applySetters_getName cs (Logger.ctor n), ?_, ?_⟩
  · intro l2 time type message file line function hlay hthr
    simp only [Logger.log, Logger.setLayout, hlay, hthr]
  · intro w p hd
    refine ⟨_, by simp only [World.setLayout, hd], (world_set_frame w p l _ hd).1, rfl,
      (world_set_frame w p l _ hd).2⟩
  · intro w p hd
    refine ⟨_, by simp only [World.setLoggingType, hd], (world_set_frame w p l _ hd).1, rfl,
      (world_set_frame w p l _ hd).2⟩

/-- The logger `b` of `exampleWorld`, at address 1, given the layout `%i`. -/
theorem setters_replace_one_field_witness :
    exampleWorld.deref 1 = some (Logger.ctor "b".toList)
    ∧ (∃ w2, exampleWorld.setLayout 1 "%i".toList = some w2
        ∧ w2.deref 1 = some ((Logger.ctor "b".toList).setLayout "%i".toList)
        ∧ w2.loggers = exampleWorld.loggers
        ∧ ∀ q, q ≠ 1 → w2.deref q = exampleWorld.deref q)
    ∧ ((Logger.ctor "b".toList).applySetters
          [Setter.setLayout "%i".toList, Setter.setLoggingType LOGGING_TYPE.DEBUG,
           Setter.setLayout []]).getName = "b".toList :=
  ⟨by decide,
   (setters_replace_one_field (Logger.ctor "b".toList) "%i".toList LOGGING_TYPE.DEBUG
      [Setter.setLayout "%i".toList, Setter.setLoggingType LOGGING_TYPE.DEBUG,
       Setter.setLayout []] "b".toList).2.2.2.2.2.1 exampleWorld 1 (by decide),
   (setters_replace_one_field (Logger.ctor "b".toList) "%i".toList LOGGING_TYPE.DEBUG
      [Setter.setLayout "%i".toList, Setter.setLoggingType LOGGING_TYPE.DEBUG,
       Setter.setLayout []] "b".toList).2.2.2.2.1⟩

/-! ## The scan and the specification's state machine -/

section MachineLemmas

variable (time : Tm) (type : LOGGING_TYPE) (message file : List Char) (line : Int)
  (function : List Char)

theorem specTable_eq_emitCode (d : Char) :
    specTable time type message file line function d
      = emitCode time type message file line function d := by
  unfold specTable emitCode
  by_cases hl : d = 'l'
  · subst hl
    cases type <;> simp [levelName]
  · simp only [hl, if_false]

theorem specRun_percent (d : Char) (rest : List Char) :
    specRun time type message file line function SpecState.LITERAL ('%' :: d :: rest)
      = ((specRun time type message file line function SpecState.LITERAL rest).1,
         emitCode time type message file line function d
           ++ (specRun time type message file line function SpecState.LITERAL rest).2) := by
  simp [specRun, specStep, specTable_eq_emitCode]

theorem specRun_literal (c : Char) (rest : List Char) (hc : c ≠ '%') :
    specRun time type message file line function SpecState.LITERAL (c :: rest)
      = ((specRun time type message file line function SpecState.LITERAL rest).1,
         c :: (specRun time type message file line function SpecState.LITERAL rest).2) := by
  simp [specRun, specStep, hc]

/-- On a NUL-free template that is read up exactly the machine ends in `LITERAL` and has
emitted what the loop of `Logger::log` writes. -/
theorem specRun_eq_expand (t : List Char) (hnul : NUL ∉ t) (ht : endsInLiteral t = true) :
    specRun time type message file line function SpecState.LITERAL t
      = (SpecState.LITERAL, expand time type message file line function t) := by
  induction t using endsInLiteral.induct with
  | case1 => simp [specRun, expand_nil]
  | case2 => simp [endsInLiteral_dangling] at ht
  | case3 d rest2 ih =>
    rw [endsInLiteral_percent] at ht
    have hnul2 : NUL ∉ rest2 := fun h => hnul (by simp [h])
    rw [specRun_percent, expand_percent, ih hnul2 ht]
  | case4 c rest hc ih =>
    rw [endsInLiteral_literal c rest hc] at ht
    have hn : c ≠ NUL := fun h => hnul (by simp [h])
    have hnul2 : NUL ∉ rest := fun h => hnul (by simp [h])
    rw [specRun_literal _ _ _ _ _ _ c rest hc,
      expand_literal _ _ _ _ _ _ c rest hc hn, ih hnul2 ht]

end MachineLemmas

theorem scanConsumed_percent (d : Char) (rest : List Char) :
    scanConsumed ('%' :: d :: rest) = (scanConsumed rest).map (fun cs => '%' :: d :: cs) := by
  rw [scanConsumed.eq_def]; simp

theorem scanConsumed_literal (c : Char) (rest : List Char) (h1 : c ≠ '%') (h2 : c ≠ NUL) :
    scanConsumed (c :: rest) = (scanConsumed rest).map (fun cs => c :: cs) := by
  rw [scanConsumed.eq_def]; simp [h1, h2]

theorem scanConsumed_nul (rest : List Char) : scanConsumed (NUL :: rest) = some [] := by
  have h : NUL ≠ '%' := by decide
  rw [scanConsumed.eq_def]; simp [h]

/-- On a NUL-free template that is read up exactly `fmt` steps over the characters of the
template, each once and in order, and the loop ends at the terminator. -/
theorem scanConsumed_template (t : List Char) (hnul : NUL ∉ t)
    (ht : endsInLiteral t = true) : scanConsumed (t ++ [NUL]) = some t := by
  induction t using endsInLiteral.induct with
  | case1 => simp [scanConsumed_nul]
  | case2 => simp [endsInLiteral_dangling] at ht
  | case3 d rest2 ih =>
    rw [endsInLiteral_percent] at ht
    have hnul2 : NUL ∉ rest2 := fun h => hnul (by simp [h])
    simp only [List.cons_append, scanConsumed_percent, ih hnul2 ht, Option.map_some']
  | case4 c rest hc ih =>
    rw [endsInLiteral_literal c rest hc] at ht
    have hn : c ≠ NUL := fun h => hnul (by simp [h])
    have hnul2 : NUL ∉ rest := fun h => hnul (by simp [h])
    simp only [List.cons_append, scanConsumed_literal c _ hc hn, ih hnul2 ht, Option.map_some']

/-- C18. On a template without NUL that does not end in a dangling `%`, a passing call
writes what the specification's two-state machine, started in `LITERAL` and run over the
characters of the template, emits, followed by a newline; the machine ends in `LITERAL`;
and the pointer walk steps over every character of the template once, in order. -/
theorem log_refines_spec_machine (self : Logger) (time : Tm) (type : LOGGING_TYPE)
    (message file : List Char) (line : Int) (function : List Char) (t : List Char)
    (hnul : NUL ∉ t) (ht : endsInLiteral t = true)
    (hpass : type.val ≤ self.currentType.val) :
    (self.setLayout t).log time type message file line function
        = Outcome.returned
            ((specRun time type message file line function SpecState.LITERAL t).2 ++ ['\n'])
    ∧ (specRun time type message file line function SpecState.LITERAL t).1
        = SpecState.LITERAL
    ∧ scanConsumed (t ++ [NUL]) = some t := by
  rw [specRun_eq_expand time type message file line function t hnul ht]
  exact ⟨log_eq_expand time type message file line function self t hnul ht hpass, rfl,
    scanConsumed_template t hnul ht⟩

/-- The default layout: the machine emits the line of the `error` call at 14:03:07. -/
theorem log_refines_spec_machine_witness :
    NUL ∉ defaultLayout ∧ endsInLiteral defaultLayout = true
    ∧ LOGGING_TYPE.ERROR.val ≤ (Logger.ctor "net".toList).currentType.val
    ∧ (specRun ⟨14, 3, 7⟩ LOGGING_TYPE.ERROR "boom".toList "conn.c".toList 42 "send".toList
          SpecState.LITERAL defaultLayout).2
        = "[ERROR] 14:3:7 - conn.c:42 (send) - boom".toList
    ∧ (((Logger.ctor "net".toList).setLayout defaultLayout).log ⟨14, 3, 7⟩
            LOGGING_TYPE.ERROR "boom".toList "conn.c".toList 42 "send".toList
          = Outcome.returned
              ((specRun ⟨14, 3, 7⟩ LOGGING_TYPE.ERROR "boom".toList "conn.c".toList 42
                  "send".toList SpecState.LITERAL defaultLayout).2 ++ ['\n'])
        ∧ (specRun ⟨14, 3, 7⟩ LOGGING_TYPE.ERROR "boom".toList "conn.c".toList 42
              "send".toList SpecState.LITERAL defaultLayout).1 = SpecState.LITERAL
        ∧ scanConsumed (defaultLayout ++ [NUL]) = some defaultLayout) :=
  ⟨by decide, by decide, by decide, by decide,
   log_refines_spec_machine (Logger.ctor "net".toList) ⟨14, 3, 7⟩ LOGGING_TYPE.ERROR
      "boom".toList "conn.c".toList 42 "send".toList defaultLayout
      (by decide) (by decide) (by decide)⟩

/-! ## Composition of layouts and the NUL character -/

/-- C19. For a NUL-free layout `t1` that is read up exactly, the rendering of `t1 ++ t2`
is the rendering of `t1` followed by the rendering of `t2`; and when `t2` too is NUL-free
and read up exactly, passing calls write these renderings followed by a newline. -/
theorem expand_append (self : Logger) (time : Tm) (type : LOGGING_TYPE)
    (message file : List Char) (line : Int) (function : List Char) (t1 t2 : List Char)
    (hnul1 : NUL ∉ t1) (ht1 : endsInLiteral t1 = true) :
    expand time type message file line function (t1 ++ t2)
        = expand time type message file line function t1
            ++ expand time type message file line function t2
    ∧ (NUL ∉ t2 → endsInLiteral t2 = true → type.val ≤ self.currentType.val →
        (self.setLayout (t1 ++ t2)).log time type message file line function
            = Outcome.returned (expand time type message file line function t1
                ++ expand time type message file line function t2 ++ ['\n'])
        ∧ (self.setLayout t1).log time type message file line function
            = Outcome.returned (expand time type message file line function t1 ++ ['\n'])
        ∧ (self.setLayout t2).log time type message file line function
            = Outcome.returned (expand time type message file line function t2 ++ ['\n'])) := by
  have hscan : scan time type message file line function ((t1 ++ t2) ++ [NUL])
      = Outcome.after (expand time type message file line function t1)
          (scan time type message file line function (t2 ++ [NUL])) := by
    rw [List.append_assoc, scan_append time type message file line function t1 _ hnul1 ht1]
  constructor
  · rw [expand, hscan, written_after]
    rfl
  · intro hnul2 ht2 hpass
    refine ⟨?_, log_eq_expand time type message file line function self t1 hnul1 ht1 hpass,
      log_eq_expand time type message file line function self t2 hnul2 ht2 hpass⟩
    rw [log_setLayout_passed time type message file line function self _ hpass, hscan,
      scan_terminated time type message file line function t2 hnul2 ht2]
    simp [Outcome.after]

/-- The layouts `[%l] ` and `%i!`: their renderings and the rendering of `[%l] %i!`. -/
theorem expand_append_witness :
    NUL ∉ "[%l] ".toList ∧ endsInLiteral "[%l] ".toList = true
    ∧ NUL ∉ "%i!".toList ∧ endsInLiteral "%i!".toList = true
    ∧ LOGGING_TYPE.INFO.val ≤ (Logger.ctor "net".toList).currentType.val
    ∧ expand ⟨14, 3, 7⟩ LOGGING_TYPE.INFO "hi".toList "conn.c".toList 42 "send".toList
          "[%l] ".toList = "[INFO] ".toList
    ∧ expand ⟨14, 3, 7⟩ LOGGING_TYPE.INFO "hi".toList "conn.c".toList 42 "send".toList
          "%i!".toList = "hi!".toList
    ∧ expand ⟨14, 3, 7⟩ LOGGING_TYPE.INFO "hi".toList "conn.c".toList 42 "send".toList
          ("[%l] ".toList ++ "%i!".toList)
        = expand ⟨14, 3, 7⟩ LOGGING_TYPE.INFO "hi".toList "conn.c".toList 42 "send".toList
            "[%l] ".toList
          ++ expand ⟨14, 3, 7⟩ LOGGING_TYPE.INFO "hi".toList "conn.c".toList 42 "send".toList
              "%i!".toList
    ∧ ((Logger.ctor "net".toList).setLayout "[%l] %i!".toList).log ⟨14, 3, 7⟩
          LOGGING_TYPE.INFO "hi".toList "conn.c".toList 42 "send".toList
        = Outcome.returned "[INFO] hi!\n".toList :=
  ⟨by decide, by decide, by decide, by decide, by decide, by decide, by decide,
   (expand_append (Logger.ctor "net".toList) ⟨14, 3, 7⟩ LOGGING_TYPE.INFO "hi".toList
      "conn.c".toList 42 "send".toList "[%l] ".toList "%i!".toList
      (by decide) (by decide)).1,
   ((expand_append (Logger.ctor "net".toList) ⟨14, 3, 7⟩ LOGGING_TYPE.INFO "hi".toList
      "conn.c".toList 42 "send".toList "[%l] ".toList "%i!".toList
      (by decide) (by decide)).2 (by decide) (by decide) (by decide)).1.trans (by decide)⟩

/-- The walk of `fmt` over a buffer with a NUL after a NUL-free part `pre` that is read up
exactly: `fmt` steps over the characters of `pre` and the loop ends at that NUL. -/
theorem scanConsumed_stops_at_nul (pre rest : List Char) (hnul : NUL ∉ pre)
    (hpre : endsInLiteral pre = true) : scanConsumed (pre ++ NUL :: rest) = some pre := by
  induction pre using endsInLiteral.induct with
  | case1 => simp [scanConsumed_nul]
  | case2 => simp [endsInLiteral_dangling] at hpre
  | case3 d rest2 ih =>
    rw [endsInLiteral_percent] at hpre
    have hnul2 : NUL ∉ rest2 := fun h => hnul (by simp [h])
    simp only [List.cons_append, scanConsumed_percent, ih hnul2 hpre, Option.map_some']
  | case4 c rest1 hc ih =>
    rw [endsInLiteral_literal c rest1 hc] at hpre
    have hn : c ≠ NUL := fun h => hnul (by simp [h])
    have hnul2 : NUL ∉ rest1 := fun h => hnul (by simp [h])
    simp only [List.cons_append, scanConsumed_literal c _ hc hn, ih hnul2 hpre,
      Option.map_some']

/-- C20. A NUL read in the literal position ends the template: on the layout
`pre ++ [NUL] ++ post`, with `pre` NUL-free and read up exactly, a passing call writes the
rendering of `pre` and a newline, as on the layout `pre` alone; nothing of `post` is
scanned. -/
theorem nul_ends_template (self : Logger) (time : Tm) (type : LOGGING_TYPE)
    (message file : List Char) (line : Int) (function : List Char) (pre post : List Char)
    (hnul : NUL ∉ pre) (hpre : endsInLiteral pre = true)
    (hpass : type.val ≤ self.currentType.val) :
    (self.setLayout (pre ++ [NUL] ++ post)).log time type message file line function
        = Outcome.returned (expand time type message file line function pre ++ ['\n'])
    ∧ (self.setLayout (pre ++ [NUL] ++ post)).log time type message file line function
        = (self.setLayout pre).log time type message file line function
    ∧ scanConsumed ((pre ++ [NUL] ++ post) ++ [NUL]) = some pre := by
  have h1 : (self.setLayout (pre ++ [NUL] ++ post)).log time type message file line function
      = Outcome.returned (expand time type message file line function pre ++ ['\n']) := by
    rw [log_setLayout_passed time type message file line function self _ hpass,
      List.append_assoc, List.append_assoc,
      scan_append time type message file line function pre _ hnul hpre,
      List.singleton_append, scan_nul]
    simp [Outcome.after]
  refine ⟨h1, ?_, ?_⟩
  · rw [h1, log_eq_expand time type message file line function self pre hnul hpre hpass]
  · rw [List.append_assoc, List.append_assoc, List.singleton_append]
    exact scanConsumed_stops_at_nul pre _ hnul hpre

/-- The layout `[%l]`, NUL, `%i tail`: only `[INFO]` and the newline are written. -/
theorem nul_ends_template_witness :
    NUL ∉ "[%l]".toList ∧ endsInLiteral "[%l]".toList = true
    ∧ LOGGING_TYPE.INFO.val ≤ (Logger.ctor "net".toList).currentType.val
    ∧ ((Logger.ctor "net".toList).setLayout ("[%l]".toList ++ [NUL] ++ "%i tail".toList)).log
          ⟨14, 3, 7⟩ LOGGING_TYPE.INFO "hi".toList "conn.c".toList 42 "send".toList
        = Outcome.returned "[INFO]\n".toList
    ∧ ((Logger.ctor "net".toList).setLayout ("[%l]".toList ++ [NUL] ++ "%i tail".toList)).log
          ⟨14, 3, 7⟩ LOGGING_TYPE.INFO "hi".toList "conn.c".toList 42 "send".toList
        = ((Logger.ctor "net".toList).setLayout "[%l]".toList).log
            ⟨14, 3, 7⟩ LOGGING_TYPE.INFO "hi".toList "conn.c".toList 42 "send".toList
    ∧ scanConsumed (("[%l]".toList ++ [NUL] ++ "%i tail".toList) ++ [NUL])
        = some "[%l]".toList :=
  ⟨by decide, by decide, by decide,
   (nul_ends_template (Logger.ctor "net".toList) ⟨14, 3, 7⟩ LOGGING_TYPE.INFO "hi".toList
      "conn.c".toList 42 "send".toList "[%l]".toList "%i tail".toList
      (by decide) (by decide) (by decide)).1.trans (by decide),
   (nul_ends_template (Logger.ctor "net".toList) ⟨14, 3, 7⟩ LOGGING_TYPE.INFO "hi".toList
      "conn.c".toList 42 "send".toList "[%l]".toList "%i tail".toList
      (by decide) (by decide) (by decide)).2⟩

end Yal
